import Mathlib

/-!
# geometry_vector.h : a shallow embedding

The generic container `geometry_vector<T, dim>` of `src/geometry_vector.h`
and its self-similarity and equality operations, as Lean functions over
lists.  Every loop of the source is a structurally recursive function that
threads the loop's local variables as explicit arguments.
-/

namespace GeometryVector

/-! ## The element type `T` -/

/-- The operations of the template parameter `T` that the container calls:
`is_valid()`, the static `NA_value()`, and `operator==` / `operator!=`.
The concrete element classes live outside `geometry_vector.h`, so they are
taken as a parameter. -/
structure Element (T : Type) where
  is_valid : T → Bool
  NA_value : T
  eq : T → T → Bool
  ne : T → T → Bool

/-- Modelled from the spec: the conversion of an element to `bool` (used by
the source as `!_storage[i]`) is declared by the element classes, which are
not part of `geometry_vector.h`; the element contract has one validity
predicate, so the conversion is that predicate. -/
def Element.to_bool {T : Type} (E : Element T) (x : T) : Bool :=
  E.is_valid x

/-- The element contract the container relies on: `NA_value()` is not valid,
`operator==` is an equivalence on the valid elements, and a valid element
never compares equal to an invalid one (in either argument order). -/
structure Element.Lawful {T : Type} (E : Element T) : Prop where
  na_invalid : E.is_valid E.NA_value = false
  eq_refl : ∀ x, E.is_valid x = true → E.eq x x = true
  eq_symm : ∀ x y, E.is_valid x = true → E.is_valid y = true →
    E.eq x y = true → E.eq y x = true
  eq_trans : ∀ x y z, E.is_valid x = true → E.is_valid y = true →
    E.is_valid z = true → E.eq x y = true → E.eq y z = true → E.eq x z = true
  na_ne_left : ∀ x y, E.is_valid x = false → E.is_valid y = true → E.eq x y = false
  na_ne_right : ∀ x y, E.is_valid x = true → E.is_valid y = false → E.eq x y = false

/-! ## Result vectors of the host environment -/

/-- A cell of a `cpp11::writable::logicals`: `FALSE`, `TRUE` or `NA_LOGICAL`. -/
inductive Logical where
  | FALSE
  | TRUE
  | NA_LOGICAL
  deriving DecidableEq, Repr

/-- The cast `(Rboolean) b` of a C++ `bool`. -/
def Rboolean (b : Bool) : Logical :=
  if b then Logical.TRUE else Logical.FALSE

/-- The integer that `cpp11::writable::integers` reads as missing. -/
def R_NaInt : Int := -2147483648

/-! ## The container -/

/-- A `geometry_vector<T, dim>` seen through `geometry_vector_base&`: the
dynamic type of the object (what `typeid` inspects) and its `_storage`.
`T` stands for the elements of every concrete kind; two vectors are of the
same concrete kind exactly when their `type_id` agree. -/
structure geometry_vector (T : Type) where
  type_id : Nat
  _storage : List T

/-- Member `size()`. -/
def geometry_vector.size {T : Type} (v : geometry_vector T) : Nat :=
  v._storage.length

/-- The call `std::find(first, last, value)` over the whole range `l`: the offset of
the first element `e` with `e == value`, or `l.length` (the `last`
iterator) if there is none. -/
def std_find {T : Type} (E : Element T) (l : List T) (value : T) : Nat :=
  l.findIdx (fun e => E.eq e value)

/-! ### `unique` (lines 284-301) -/

/-- The loop of `unique()`: `iter` walks the first argument, `new_storage`
and `NA_seen` are the loop's locals. -/
def unique_loop {T : Type} (E : Element T) : List T → List T → Bool → List T
  | [], new_storage, _ => new_storage
  | x :: rest, new_storage, NA_seen =>
    if !E.is_valid x then
      if !NA_seen then
        unique_loop E rest (new_storage ++ [E.NA_value]) true
      else
        unique_loop E rest new_storage NA_seen
    else if std_find E new_storage x = new_storage.length then
      unique_loop E rest (new_storage ++ [x]) NA_seen
    else
      unique_loop E rest new_storage NA_seen

/-- Member `unique()`; `new_from_vector` builds a vector of the receiver's kind. -/
def unique {T : Type} (E : Element T) (v : geometry_vector T) : geometry_vector T :=
  { type_id := v.type_id, _storage := unique_loop E v._storage [] false }

/-! ### `duplicated` (lines 302-324) -/

/-- The loop of `duplicated()`: locals `uniques`, `dupes`, `NA_seen`. -/
def duplicated_loop {T : Type} (E : Element T) :
    List T → List T → List Logical → Bool → List Logical
  | [], _, dupes, _ => dupes
  | x :: rest, uniques, dupes, NA_seen =>
    if !E.is_valid x then
      if !NA_seen then
        duplicated_loop E rest uniques (dupes ++ [Logical.TRUE]) true
      else
        duplicated_loop E rest uniques dupes NA_seen
    else if std_find E uniques x = uniques.length then
      duplicated_loop E rest (uniques ++ [x]) (dupes ++ [Logical.FALSE]) NA_seen
    else
      duplicated_loop E rest uniques (dupes ++ [Logical.TRUE]) NA_seen

/-- Member `duplicated()`. -/
def duplicated {T : Type} (E : Element T) (v : geometry_vector T) : List Logical :=
  duplicated_loop E v._storage [] [] false

/-! ### `any_duplicated` (lines 325-344) -/

/-- The loop of `any_duplicated()`.  The first argument is the range
`[iter, _storage.end())`, so its head is both `*iter` and `_storage[i]`;
`anyone` starts at `-1` and is only written right before a `break`, so the
loop returns the written value, or `-1` when it runs to the end.  The
assignment `anyone = true` stores the `int` 1. -/
def any_duplicated_loop {T : Type} (E : Element T) : List T → Bool → Int → Int
  | [], _, _ => -1
  | x :: rest, NA_seen, i =>
    if !E.is_valid x then
      if NA_seen then i
      else any_duplicated_loop E rest true (i + 1)
    else if std_find E rest x ≠ rest.length then 1
    else any_duplicated_loop E rest NA_seen (i + 1)

/-- Member `any_duplicated()`. -/
def any_duplicated {T : Type} (E : Element T) (v : geometry_vector T) : Int :=
  any_duplicated_loop E v._storage false 0

/-! ### `match` (lines 345-390) -/

/-- The first loop of `match()`, over the table: `i` is the loop counter,
`NA_ind` and `lookup` are the locals. -/
def match_table_loop {T : Type} (E : Element T) : List T → Int → Int → List T → Int × List T
  | [], _, NA_ind, lookup => (NA_ind, lookup)
  | t :: rest, i, NA_ind, lookup =>
    if NA_ind = -1 && !E.to_bool t then
      match_table_loop E rest (i + 1) i (lookup ++ [t])
    else
      match_table_loop E rest (i + 1) NA_ind (lookup ++ [t])

/-- The second loop of `match()`, over the receiver: `result` is the local
that is returned; `match - start` is the offset that `std::find` gave. -/
def match_loop {T : Type} (E : Element T) (NA_ind : Int) (lookup : List T) :
    List T → List Int → List Int
  | [], result => result
  | x :: rest, result =>
    if !E.is_valid x then
      if NA_ind = -1 then
        match_loop E NA_ind lookup rest (result ++ [R_NaInt])
      else
        match_loop E NA_ind lookup rest (result ++ [NA_ind + 1])
    else if std_find E lookup x = lookup.length then
      match_loop E NA_ind lookup rest (result ++ [R_NaInt])
    else
      match_loop E NA_ind lookup rest (result ++ [(std_find E lookup x : Int) + 1])

/-- Member `match(table)`.  On differing dynamic types one `R_NaInt` is pushed per
element of the receiver; otherwise the `dynamic_cast` succeeds and
`table_recast` is the table itself. -/
def match_ {T : Type} (E : Element T) (v table : geometry_vector T) : List Int :=
  if v.type_id ≠ table.type_id then
    List.replicate v.size R_NaInt
  else
    let scan := match_table_loop E table._storage 0 (-1) []
    match_loop E scan.1 scan.2 v._storage []

/-! ### `operator==` (lines 163-186) -/

/-- Ways in which a call does not return a value. -/
inductive Failure where
  | modulo_by_zero
  | out_of_range
  | null_pointer
  | stop_incompatible_vector_sizes
  | stop_incompatible_assignment_value_type
  | stop_incompatible_vector_types
  | length_error
  deriving DecidableEq, Repr

/-- The unsigned `a % b` of C++: undefined for `b = 0`. -/
def umod (a b : Nat) : Except Failure Nat :=
  if b = 0 then Except.error Failure.modulo_by_zero else Except.ok (a % b)

/-- Unchecked `operator[]` of a `std::vector`. -/
def index {T : Type} (l : List T) (i : Nat) : Except Failure T :=
  match l[i]? with
  | some x => Except.ok x
  | none => Except.error Failure.out_of_range

/-- The cast `dynamic_cast<const geometry_vector<T, dim>*>(&other)` inside a method of
`self`: the null pointer unless `other` has the dynamic type of `self`. -/
def dynamic_cast {T : Type} (self other : geometry_vector T) : Option (geometry_vector T) :=
  if other.type_id = self.type_id then some other else none

/-- Element `j % other_recast->size()` of `*other_recast`. -/
def recast_index {T : Type} (other_recast : Option (geometry_vector T)) (i : Nat) :
    Except Failure T :=
  match other_recast with
  | none => Except.error Failure.null_pointer
  | some o =>
    match umod i o.size with
    | Except.error e => Except.error e
    | Except.ok j => index o._storage j

/-- The main loop of `operator==`.  The first argument counts the iterations
that are left (`output_length - i`); `result` is the vector being filled,
a cell that was never written being `none`.  The `||` of the source
evaluates its right operand only when the left one is false. -/
def operator_eq_loop {T : Type} (E : Element T) (_storage : List T)
    (other_recast : Option (geometry_vector T)) :
    Nat → Nat → List (Option Logical) → Except Failure (List (Option Logical))
  | 0, _, result => Except.ok result
  | n + 1, i, result =>
    match umod i _storage.length with
    | Except.error e => Except.error e
    | Except.ok ia =>
      match index _storage ia with
      | Except.error e => Except.error e
      | Except.ok x =>
        if !E.to_bool x then
          operator_eq_loop E _storage other_recast n (i + 1)
            (result.set i (some Logical.NA_LOGICAL))
        else
          match recast_index other_recast i with
          | Except.error e => Except.error e
          | Except.ok y =>
            if !E.to_bool y then
              operator_eq_loop E _storage other_recast n (i + 1)
                (result.set i (some Logical.NA_LOGICAL))
            else
              operator_eq_loop E _storage other_recast n (i + 1)
                (result.set i (some (Rboolean (E.eq x y))))

/-- Member `operator==`.  `logicals result(output_length)` allocates without
writing the cells.  On differing dynamic types the `for` loop returns inside
its first iteration, after writing `result[0]`; when the receiver is empty
that loop body never runs and control reaches the cast and the main loop. -/
def operator_eq {T : Type} (E : Element T) (self other : geometry_vector T) :
    Except Failure (List (Option Logical)) :=
  let output_length := max self.size other.size
  let result : List (Option Logical) := List.replicate output_length none
  if self.type_id ≠ other.type_id ∧ 0 < self.size then
    Except.ok (result.set 0 (some (Rboolean false)))
  else
    operator_eq_loop E self._storage (dynamic_cast self other) output_length 0 result

/-! ### `operator!=` (lines 187-210) -/

/-- The main loop of `operator!=`: the loop of `operator==` with the
element's `!=` in the last assignment. -/
def operator_ne_loop {T : Type} (E : Element T) (_storage : List T)
    (other_recast : Option (geometry_vector T)) :
    Nat → Nat → List (Option Logical) → Except Failure (List (Option Logical))
  | 0, _, result => Except.ok result
  | n + 1, i, result =>
    match umod i _storage.length with
    | Except.error e => Except.error e
    | Except.ok ia =>
      match index _storage ia with
      | Except.error e => Except.error e
      | Except.ok x =>
        if !E.to_bool x then
          operator_ne_loop E _storage other_recast n (i + 1)
            (result.set i (some Logical.NA_LOGICAL))
        else
          match recast_index other_recast i with
          | Except.error e => Except.error e
          | Except.ok y =>
            if !E.to_bool y then
              operator_ne_loop E _storage other_recast n (i + 1)
                (result.set i (some Logical.NA_LOGICAL))
            else
              operator_ne_loop E _storage other_recast n (i + 1)
                (result.set i (some (Rboolean (E.ne x y))))

/-- Member `operator!=`, with the same prologue as `operator==`: on differing
dynamic types the `for` loop writes `result[0] = false` and returns inside
its first iteration. -/
def operator_ne {T : Type} (E : Element T) (self other : geometry_vector T) :
    Except Failure (List (Option Logical)) :=
  let output_length := max self.size other.size
  let result : List (Option Logical) := List.replicate output_length none
  if self.type_id ≠ other.type_id ∧ 0 < self.size then
    Except.ok (result.set 0 (some (Rboolean false)))
  else
    operator_ne_loop E self._storage (dynamic_cast self other) output_length 0 result

/-! ### `subset` (lines 225-236) -/

/-- The access `_storage[k - 1]` for an `int` `k`: the index is converted to
`size_t`, so a negative `k - 1` becomes a position beyond every size. -/
def index_int {T : Type} (l : List T) (k : Int) : Except Failure T :=
  if k - 1 < 0 then Except.error Failure.out_of_range else index l (k - 1).toNat

/-- The loop of `subset()`: the first argument is the part of `index` still
to be read, `new_storage` the local that is returned. -/
def subset_loop {T : Type} (E : Element T) (_storage : List T) :
    List Int → List T → Except Failure (List T)
  | [], new_storage => Except.ok new_storage
  | k :: rest, new_storage =>
    if k = R_NaInt then
      subset_loop E _storage rest (new_storage ++ [E.NA_value])
    else
      match index_int _storage k with
      | Except.error e => Except.error e
      | Except.ok x => subset_loop E _storage rest (new_storage ++ [x])

/-- Member `subset(index)`; `new_from_vector` builds a vector of the
receiver's kind. -/
def subset {T : Type} (E : Element T) (v : geometry_vector T) (idx : List Int) :
    Except Failure (geometry_vector T) :=
  match subset_loop E v._storage idx [] with
  | Except.error e => Except.error e
  | Except.ok new_storage => Except.ok { type_id := v.type_id, _storage := new_storage }

/-! ### `assign` (lines 243-265) -/

/-- The value `*std::max_element(first, last)`: the largest element of the
range; on an empty range the call returns `last`, which cannot be read. -/
def std_max_element (l : List Int) : Except Failure Int :=
  match l with
  | [] => Except.error Failure.out_of_range
  | k :: rest => Except.ok (rest.foldl max k)

/-- The extension loop of `assign()`, `for (int j = new_storage.size();
j < max_size; ++j)`: the first argument counts the iterations that are left
(`max_size - j`). -/
def assign_extend_loop {T : Type} (E : Element T) : Nat → List T → List T
  | 0, new_storage => new_storage
  | n + 1, new_storage => assign_extend_loop E n (new_storage ++ [E.NA_value])

/-- The write `new_storage[k - 1] = x` for an `int` `k`, unchecked. -/
def store_int {T : Type} (new_storage : List T) (k : Int) (x : T) : Except Failure (List T) :=
  if k - 1 < 0 then Except.error Failure.out_of_range
  else if (k - 1).toNat < new_storage.length then Except.ok (new_storage.set (k - 1).toNat x)
  else Except.error Failure.out_of_range

/-- The assignment loop of `assign()`: the first argument is the part of
`index` still to be read, `i` the loop counter, `value_storage` the storage
of `*value_recast`. -/
def assign_loop {T : Type} (value_storage : List T) :
    List Int → Nat → List T → Except Failure (List T)
  | [], _, new_storage => Except.ok new_storage
  | k :: rest, i, new_storage =>
    match index value_storage i with
    | Except.error e => Except.error e
    | Except.ok x =>
      match store_int new_storage k x with
      | Except.error e => Except.error e
      | Except.ok stored => assign_loop value_storage rest (i + 1) stored

/-- Member `assign(index, value)`.  In the test
`max_size > new_storage.size()` the `int` is converted to `size_t`: a
negative `max_size` exceeds every size, and `reserve` of that amount throws
`std::length_error`. -/
def assign {T : Type} (E : Element T) (self : geometry_vector T) (idx : List Int)
    (value : geometry_vector T) : Except Failure (geometry_vector T) :=
  if idx.length ≠ value.size then
    Except.error Failure.stop_incompatible_vector_sizes
  else if self.type_id ≠ value.type_id then
    Except.error Failure.stop_incompatible_assignment_value_type
  else
    match std_max_element idx with
    | Except.error e => Except.error e
    | Except.ok max_size =>
      if max_size < 0 then Except.error Failure.length_error
      else
        let new_storage :=
          if max_size.toNat > self._storage.length then
            assign_extend_loop E (max_size.toNat - self._storage.length) self._storage
          else self._storage
        match assign_loop value._storage idx 0 new_storage with
        | Except.error e => Except.error e
        | Except.ok stored => Except.ok { type_id := self.type_id, _storage := stored }

/-! ### `combine` (lines 266-281) -/

/-- The outer loop of `combine()`; the inner loop pushes the elements of the
candidate one by one, in order. -/
def combine_loop {T : Type} (self_type_id : Nat) :
    List (geometry_vector T) → List T → Except Failure (List T)
  | [], new_storage => Except.ok new_storage
  | candidate :: rest, new_storage =>
    if self_type_id ≠ candidate.type_id then
      Except.error Failure.stop_incompatible_vector_types
    else
      combine_loop self_type_id rest (new_storage ++ candidate._storage)

/-- Member `combine(extra)`. -/
def combine {T : Type} (self : geometry_vector T) (extra : List (geometry_vector T)) :
    Except Failure (geometry_vector T) :=
  match combine_loop self.type_id extra self._storage with
  | Except.error e => Except.error e
  | Except.ok new_storage => Except.ok { type_id := self.type_id, _storage := new_storage }

/-! ## A concrete element type -/

/-- A small element type: three distinct values and the missing one. -/
inductive Sample where
  | A
  | B
  | C
  | NA
  deriving DecidableEq, Repr

/-- The element operations of `Sample`. -/
def sampleElement : Element Sample where
  is_valid := fun x => decide (x ≠ Sample.NA)
  NA_value := Sample.NA
  eq := fun x y => decide (x = y ∧ x ≠ Sample.NA)
  ne := fun x y => !decide (x = y ∧ x ≠ Sample.NA)

/-! ## Statements of the specification and auxiliary notions -/

/-- Specification wording, "v[i] is non-NA and equals no earlier v[j], or
v[i] is the first NA of v": whether position `i` of `l` is kept by
`unique`. -/
def spec_first_occurrence {T : Type} (E : Element T) (l : List T) (i : Nat) : Bool :=
  match l[i]? with
  | none => false
  | some x =>
    if E.is_valid x then (l.take i).all (fun y => !E.eq x y)
    else (l.take i).all (fun y => E.is_valid y)

/-- Specification wording: the subsequence of `l` at the positions that
`spec_first_occurrence` keeps. -/
def spec_unique {T : Type} (E : Element T) (l : List T) : List T :=
  ((List.range l.length).filter (spec_first_occurrence E l)).filterMap (fun i => l[i]?)

/-- An NA element is written to a result as `NA_value()`. -/
def Element.canonical {T : Type} (E : Element T) (x : T) : T :=
  if E.is_valid x then x else E.NA_value

/-- Two elements, the first stored before the second, that are not repeats of
one another: not both NA, and, when both are valid, not equal. -/
def NoRepeat {T : Type} (E : Element T) (x y : T) : Prop :=
  (E.is_valid x = true → E.is_valid y = true → E.eq x y = false) ∧
    ¬ (E.is_valid x = false ∧ E.is_valid y = false)

/-- Storage without repeats whose NA entry, if any, is `NA_value()`. -/
def Clean {T : Type} (E : Element T) (l : List T) : Prop :=
  l.Pairwise (NoRepeat E) ∧ ∀ e ∈ l, E.is_valid e = false → e = E.NA_value

/-- Specification wording, "the smallest 0-indexed position with ...":
`q` is the first position of `l` whose element satisfies `p`. -/
def spec_first_index {T : Type} (p : T → Bool) (l : List T) (q : Nat) : Prop :=
  ∃ t, l[q]? = some t ∧ p t = true ∧ ∀ j s, j < q → l[j]? = some s → p s = false

/-- The entry that the receiver loop of `match` pushes for the element `x`. -/
def match_cell {T : Type} (E : Element T) (NA_ind : Int) (lookup : List T) (x : T) : Int :=
  if !E.is_valid x then
    if NA_ind = -1 then R_NaInt else NA_ind + 1
  else if std_find E lookup x = lookup.length then R_NaInt
  else (std_find E lookup x : Int) + 1

/-- Specification wording: a comparison with an NA on either side is NA,
otherwise it tells whether the two elements are equal. -/
def spec_equals_cell {T : Type} (E : Element T) (x y : T) : Logical :=
  if E.is_valid x = false ∨ E.is_valid y = false then Logical.NA_LOGICAL
  else if E.eq x y = true then Logical.TRUE
  else Logical.FALSE

/-- The entry of `match` for a sought property `p` of the table's elements:
one more than the offset of the first element satisfying `p`, or `R_NaInt`. -/
def first_match_position {T : Type} (p : T → Bool) (table : List T) : Int :=
  if table.findIdx p < table.length then (table.findIdx p : Int) + 1 else R_NaInt

/-- The element operations with `==` and `!=` exchanged: `operator!=` is
`operator==` over these. -/
def Element.exchanged {T : Type} (E : Element T) : Element T where
  is_valid := E.is_valid
  NA_value := E.NA_value
  eq := E.ne
  ne := E.eq

/-- Specification wording, "the logical negation ... with the same NA
propagation": negation of a tri-state cell. -/
def spec_negation : Logical → Logical
  | Logical.TRUE => Logical.FALSE
  | Logical.FALSE => Logical.TRUE
  | Logical.NA_LOGICAL => Logical.NA_LOGICAL

/-- The element that `subset` pushes for the entry `k` of the index list, for
an entry that is NA or in range. -/
def subset_cell {T : Type} (E : Element T) (_storage : List T) (k : Int) : T :=
  if k = R_NaInt then E.NA_value else (_storage[(k - 1).toNat]?).getD E.NA_value

/-- Specification wording, "non-NA entries all lie in 1..size(v)". -/
def spec_indices_in_range (idx : List Int) (size : Nat) : Prop :=
  ∀ k ∈ idx, k ≠ R_NaInt → 1 ≤ k ∧ k ≤ (size : Int)

/-! # Theorems -/

theorem sampleElement_lawful : sampleElement.Lawful where
  na_invalid := by decide
  eq_refl := by intro x; cases x <;> decide
  eq_symm := by intro x y; cases x <;> cases y <;> decide
  eq_trans := by intro x y z; cases x <;> cases y <;> cases z <;> decide
  na_ne_left := by intro x y; cases x <;> cases y <;> decide
  na_ne_right := by intro x y; cases x <;> cases y <;> decide

/-! ## Lemmas on the specification functions -/

theorem spec_first_occurrence_append_left {T : Type} (E : Element T) (pre suf : List T)
    (i : Nat) (hi : i < pre.length) :
    spec_first_occurrence E (pre ++ suf) i = spec_first_occurrence E pre i := by
  unfold spec_first_occurrence
  rw [List.getElem?_append_left hi, List.take_append_of_le_length (Nat.le_of_lt hi)]

theorem spec_first_occurrence_last {T : Type} (E : Element T) (pre : List T) (x : T) :
    spec_first_occurrence E (pre ++ [x]) pre.length =
      if E.is_valid x then pre.all (fun y => !E.eq x y)
      else pre.all (fun y => E.is_valid y) := by
  unfold spec_first_occurrence
  simp

theorem spec_unique_snoc {T : Type} (E : Element T) (pre : List T) (x : T) :
    spec_unique E (pre ++ [x]) =
      spec_unique E pre ++
        (if spec_first_occurrence E (pre ++ [x]) pre.length then [x] else []) := by
  unfold spec_unique
  have hlen : (pre ++ [x]).length = pre.length + 1 := by simp
  rw [hlen, List.range_succ, List.filter_append, List.filterMap_append]
  congr 1
  · have h1 : (List.range pre.length).filter (spec_first_occurrence E (pre ++ [x]))
        = (List.range pre.length).filter (spec_first_occurrence E pre) := by
      apply List.filter_congr
      intro i hi
      exact spec_first_occurrence_append_left E pre [x] i (List.mem_range.mp hi)
    rw [h1]
    apply List.filterMap_congr
    intro i hi
    have hi2 : i < pre.length := List.mem_range.mp (List.mem_filter.mp hi).1
    exact List.getElem?_append_left hi2
  · by_cases h : spec_first_occurrence E (pre ++ [x]) pre.length = true
    · simp [h]
    · simp [h]

theorem mem_of_mem_spec_unique {T : Type} (E : Element T) (l : List T) (u : T)
    (h : u ∈ spec_unique E l) : u ∈ l := by
  unfold spec_unique at h
  obtain ⟨i, _, hi⟩ := List.mem_filterMap.mp h
  exact List.getElem?_mem hi

/-- Every valid element of `l` has an equal representative among the kept
first occurrences. -/
theorem exists_rep_spec_unique {T : Type} (E : Element T) (hE : E.Lawful) (l : List T) :
    ∀ y ∈ l, E.is_valid y = true →
      ∃ u ∈ spec_unique E l, E.is_valid u = true ∧ E.eq u y = true := by
  induction l using List.reverseRecOn with
  | nil => intro y hy; simp at hy
  | append_singleton pre z ih =>
    intro y hy hvy
    rw [spec_unique_snoc]
    rcases List.mem_append.mp hy with hyp | hyz
    · obtain ⟨u, hu, hvu, heq⟩ := ih y hyp hvy
      exact ⟨u, List.mem_append_left _ hu, hvu, heq⟩
    · have hyz2 : y = z := by simpa using hyz
      subst hyz2
      by_cases hfo : spec_first_occurrence E (pre ++ [y]) pre.length = true
      · refine ⟨y, ?_, hvy, hE.eq_refl y hvy⟩
        simp [hfo]
      · rw [spec_first_occurrence_last, if_pos hvy] at hfo
        simp only [List.all_eq_true, Bool.not_eq_true, not_forall] at hfo
        obtain ⟨w, hw, hne⟩ := hfo
        have heq : E.eq y w = true := by
          cases h : E.eq y w
          · simp [h] at hne
          · rfl
        have hvw : E.is_valid w = true := by
          cases h : E.is_valid w
          · rw [hE.na_ne_right y w hvy h] at heq
            exact absurd heq (by decide)
          · rfl
        obtain ⟨u, hu, hvu, huw⟩ := ih w hw hvw
        exact ⟨u, List.mem_append_left _ hu, hvu,
          hE.eq_trans u w y hvu hvw hvy huw (hE.eq_symm y w hvy hvw heq)⟩

/-- In the loop of `unique`, the test `std::find(...) == new_storage.end()`
agrees with the specification's "equals no earlier element". -/
theorem std_find_spec_unique {T : Type} (E : Element T) (hE : E.Lawful) (pre : List T)
    (x : T) (hx : E.is_valid x = true) :
    std_find E ((spec_unique E pre).map E.canonical) x
        = ((spec_unique E pre).map E.canonical).length ↔
      pre.all (fun y => !E.eq x y) = true := by
  unfold std_find
  rw [List.findIdx_eq_length]
  simp only [List.mem_map, forall_exists_index, and_imp, forall_apply_eq_imp_iff₂,
    List.all_eq_true, Bool.not_eq_true']
  constructor
  · intro h y hy
    cases hxy : E.eq x y
    · rfl
    · exfalso
      have hvy : E.is_valid y = true := by
        cases hv : E.is_valid y
        · rw [hE.na_ne_right x y hx hv] at hxy
          exact absurd hxy (by decide)
        · rfl
      obtain ⟨u, hu, hvu, huy⟩ := exists_rep_spec_unique E hE pre y hy hvy
      have h1 := h u hu
      have hcu : E.canonical u = u := by simp [Element.canonical, hvu]
      rw [hcu] at h1
      have h2 := hE.eq_trans u y x hvu hvy hx huy (hE.eq_symm x y hx hvy hxy)
      rw [h1] at h2
      exact absurd h2 (by decide)
  · intro h u hu
    have hup := mem_of_mem_spec_unique E pre u hu
    cases hvu : E.is_valid u
    · have hcu : E.canonical u = E.NA_value := by simp [Element.canonical, hvu]
      rw [hcu]
      exact hE.na_ne_left _ _ hE.na_invalid hx
    · have hcu : E.canonical u = u := by simp [Element.canonical, hvu]
      rw [hcu]
      cases hux : E.eq u x
      · rfl
      · have := hE.eq_symm u x hvu hx hux
        rw [h u hup] at this
        exact absurd this (by decide)

theorem unique_loop_cons {T : Type} (E : Element T) (x : T) (rest new_storage : List T)
    (NA_seen : Bool) :
    unique_loop E (x :: rest) new_storage NA_seen =
      if !E.is_valid x then
        if !NA_seen then unique_loop E rest (new_storage ++ [E.NA_value]) true
        else unique_loop E rest new_storage NA_seen
      else if std_find E new_storage x = new_storage.length then
        unique_loop E rest (new_storage ++ [x]) NA_seen
      else unique_loop E rest new_storage NA_seen := by
  rfl

/-- Loop invariant of `unique`: after the prefix `pre`, `new_storage` is the
specified subsequence of `pre` and `NA_seen` tells whether `pre` holds an NA. -/
theorem unique_loop_spec {T : Type} (E : Element T) (hE : E.Lawful) :
    ∀ (rest pre : List T),
      unique_loop E rest ((spec_unique E pre).map E.canonical)
          (pre.any (fun y => !E.is_valid y))
        = (spec_unique E (pre ++ rest)).map E.canonical := by
  intro rest
  induction rest with
  | nil => intro pre; simp [unique_loop]
  | cons x rest ih =>
    intro pre
    have hstep : pre ++ x :: rest = (pre ++ [x]) ++ rest := by simp
    have hany : (pre ++ [x]).any (fun y => !E.is_valid y)
        = (pre.any (fun y => !E.is_valid y) || !E.is_valid x) := by simp
    have hih := ih (pre ++ [x])
    rw [hany, spec_unique_snoc, spec_first_occurrence_last] at hih
    rw [hstep, ← hih, unique_loop_cons]
    cases hvx : E.is_valid x
    · -- an NA element
      cases hseen : pre.any (fun y => !E.is_valid y)
      · have hall : pre.all (fun y => E.is_valid y) = true := by
          simp only [List.any_eq_false, Bool.not_eq_true', Bool.not_eq_false] at hseen
          simpa using hseen
        simp [hall, Element.canonical, hvx]
      · have hall : pre.all (fun y => E.is_valid y) = false := by
          simp only [List.any_eq_true, Bool.not_eq_true'] at hseen
          obtain ⟨y, hy, hvy⟩ := hseen
          cases h : pre.all (fun y => E.is_valid y)
          · rfl
          · simp only [List.all_eq_true] at h
            rw [h y hy] at hvy
            exact absurd hvy (by decide)
        simp [hall]
    · -- a valid element
      have hfind := std_find_spec_unique E hE pre x hvx
      by_cases hall : pre.all (fun y => !E.eq x y) = true
      · have hf := hfind.mpr hall
        rw [List.length_map] at hf
        simp [hf, hall, Element.canonical, hvx]
      · have hn : ¬ std_find E ((spec_unique E pre).map E.canonical) x
            = ((spec_unique E pre).map E.canonical).length := fun h => hall (hfind.mp h)
        rw [List.length_map] at hn
        have hall2 : pre.all (fun y => !E.eq x y) = false := by
          cases h : pre.all (fun y => !E.eq x y)
          · rfl
          · exact absurd h hall
        simp [hn, hall2]

/-- Loop invariant of `unique` on its locals: `new_storage` is clean, and
holds no NA as long as `NA_seen` is false. -/
theorem unique_loop_clean {T : Type} (E : Element T) (hE : E.Lawful) :
    ∀ (rest new_storage : List T) (NA_seen : Bool),
      Clean E new_storage →
      (NA_seen = false → ∀ e ∈ new_storage, E.is_valid e = true) →
      Clean E (unique_loop E rest new_storage NA_seen) := by
  intro rest
  induction rest with
  | nil => intro ns seen hc _; simpa [unique_loop] using hc
  | cons x rest ih =>
    intro ns seen hc hseen
    rw [unique_loop_cons]
    cases hvx : E.is_valid x
    · cases hs : seen
      · simp only [Bool.not_false, if_true]
        apply ih
        · refine ⟨?_, ?_⟩
          · rw [List.pairwise_append]
            refine ⟨hc.1, List.pairwise_singleton _ _, ?_⟩
            intro a ha b hb
            have hb2 : b = E.NA_value := by simpa using hb
            subst hb2
            have hva := hseen hs a ha
            refine ⟨fun _ h => ?_, fun h => ?_⟩
            · rw [hE.na_invalid] at h
              exact absurd h (by decide)
            · rw [hva] at h
              exact absurd h.1 (by decide)
          · intro e he hve
            rcases List.mem_append.mp he with h | h
            · exact hc.2 e h hve
            · simpa using h
        · intro h
          exact absurd h (by decide)
      · simp only [Bool.not_false, Bool.not_true, if_true, Bool.false_eq_true, if_false]
        apply ih _ _ hc
        intro h
        exact absurd h (by decide)
    · simp only [Bool.not_true, Bool.false_eq_true, if_false]
      by_cases hf : std_find E ns x = ns.length
      · rw [if_pos hf]
        unfold std_find at hf
        rw [List.findIdx_eq_length] at hf
        apply ih
        · refine ⟨?_, ?_⟩
          · rw [List.pairwise_append]
            refine ⟨hc.1, List.pairwise_singleton _ _, ?_⟩
            intro a ha b hb
            have hb2 : b = x := by simpa using hb
            subst hb2
            refine ⟨fun _ _ => hf a ha, fun h => ?_⟩
            rw [hvx] at h
            exact absurd h.2 (by decide)
          · intro e he hve
            rcases List.mem_append.mp he with h | h
            · exact hc.2 e h hve
            · have h2 : e = x := by simpa using h
              rw [h2, hvx] at hve
              exact absurd hve (by decide)
        · intro hs e he
          rcases List.mem_append.mp he with h | h
          · exact hseen hs e h
          · have h2 : e = x := by simpa using h
            rw [h2]
            exact hvx
      · rw [if_neg hf]
        exact ih _ _ hc hseen

theorem unique_storage_clean {T : Type} (E : Element T) (hE : E.Lawful) (l : List T) :
    Clean E (unique_loop E l [] false) := by
  apply unique_loop_clean E hE
  · exact ⟨List.Pairwise.nil, fun e he => absurd he (List.not_mem_nil e)⟩
  · intro _ e he
    exact absurd he (List.not_mem_nil e)

/-- A list in which no two entries both satisfy `p` has at most one entry
satisfying `p`. -/
theorem countP_le_one_of_pairwise {T : Type} (p : T → Bool) (l : List T)
    (h : l.Pairwise (fun x y => ¬ (p x = true ∧ p y = true))) : l.countP p ≤ 1 := by
  induction l with
  | nil => simp
  | cons x l ih =>
    rw [List.pairwise_cons] at h
    rw [List.countP_cons]
    by_cases hx : p x = true
    · have h0 : l.countP p = 0 := by
        rw [List.countP_eq_zero]
        intro y hy hpy
        exact h.1 y hy ⟨hx, hpy⟩
      simp [h0, hx]
    · have := ih h.2
      simp [hx, this]

/-- On clean storage the loop of `unique` appends every element. -/
theorem unique_loop_of_clean {T : Type} (E : Element T) (hE : E.Lawful) :
    ∀ (l new_storage : List T) (NA_seen : Bool),
      Clean E l →
      (∀ a ∈ new_storage, ∀ x ∈ l, E.is_valid x = true → E.eq a x = false) →
      (NA_seen = true → ∀ x ∈ l, E.is_valid x = true) →
      unique_loop E l new_storage NA_seen = new_storage ++ l := by
  intro l
  induction l with
  | nil => intro ns seen _ _ _; simp [unique_loop]
  | cons x l ih =>
    intro ns seen hc hns hseen
    have hp := List.pairwise_cons.mp hc.1
    have hcl : Clean E l := ⟨hp.2, fun e he => hc.2 e (List.mem_cons_of_mem _ he)⟩
    rw [unique_loop_cons]
    cases hvx : E.is_valid x
    · have hs : seen = false := by
        cases h : seen
        · rfl
        · have := hseen h x (List.mem_cons_self _ _)
          rw [hvx] at this
          exact absurd this (by decide)
      have hx : x = E.NA_value := hc.2 x (List.mem_cons_self _ _) hvx
      simp only [hs, Bool.not_false, if_true]
      rw [← hx, ih (ns ++ [x]) true hcl]
      · simp
      · intro a ha y hy hvy
        rcases List.mem_append.mp ha with h | h
        · exact hns a h y (List.mem_cons_of_mem _ hy) hvy
        · have h2 : a = x := by simpa using h
          rw [h2]
          exact hE.na_ne_left x y hvx hvy
      · intro _ y hy
        cases hvy : E.is_valid y
        · exact absurd ⟨hvx, hvy⟩ (hp.1 y hy).2
        · rfl
    · simp only [Bool.not_true, Bool.false_eq_true, if_false]
      have hf : std_find E ns x = ns.length := by
        unfold std_find
        rw [List.findIdx_eq_length]
        intro a ha
        exact hns a ha x (List.mem_cons_self _ _) hvx
      rw [if_pos hf, ih (ns ++ [x]) seen hcl]
      · simp
      · intro a ha y hy hvy
        rcases List.mem_append.mp ha with h | h
        · exact hns a h y (List.mem_cons_of_mem _ hy) hvy
        · have h2 : a = x := by simpa using h
          rw [h2]
          exact (hp.1 y hy).1 hvx hvy
      · intro h y hy
        exact hseen h y (List.mem_cons_of_mem _ hy)

/-! ## `match` -/

theorem spec_first_index_findIdx {T : Type} (p : T → Bool) (l : List T)
    (h : l.findIdx p < l.length) : spec_first_index p l (l.findIdx p) := by
  refine ⟨l[l.findIdx p], List.getElem?_eq_getElem h, List.findIdx_getElem, ?_⟩
  intro j s hj hs
  have hjl : j < l.length := Nat.lt_trans hj h
  rw [List.getElem?_eq_getElem hjl] at hs
  have := List.not_of_lt_findIdx hj
  rw [← Option.some.inj hs]
  exact this

theorem spec_first_index_unique {T : Type} (p : T → Bool) (l : List T) (q q2 : Nat)
    (h : spec_first_index p l q) (h2 : spec_first_index p l q2) : q = q2 := by
  obtain ⟨t, ht, hpt, hmin⟩ := h
  obtain ⟨t2, ht2, hpt2, hmin2⟩ := h2
  rcases Nat.lt_trichotomy q q2 with hlt | heq | hgt
  · have := hmin2 q t hlt ht
    rw [hpt] at this
    exact absurd this (by decide)
  · exact heq
  · have := hmin q2 t2 hgt ht2
    rw [hpt2] at this
    exact absurd this (by decide)

/-- The table loop of `match` copies the table into `lookup`. -/
theorem match_table_loop_snd {T : Type} (E : Element T) :
    ∀ (rest : List T) (i NA_ind : Int) (lookup : List T),
      (match_table_loop E rest i NA_ind lookup).2 = lookup ++ rest := by
  intro rest
  induction rest with
  | nil => intro i na lookup; simp [match_table_loop]
  | cons t rest ih =>
    intro i na lookup
    unfold match_table_loop
    split
    · rw [ih]; simp
    · rw [ih]; simp

/-- The table loop of `match` leaves in `NA_ind` the position of the first
NA of the table, or `-1`. -/
theorem match_table_loop_fst {T : Type} (E : Element T) :
    ∀ (rest : List T) (i NA_ind : Int) (lookup : List T), 0 ≤ i →
      (match_table_loop E rest i NA_ind lookup).1 =
        if NA_ind = -1 then
          (if rest.findIdx (fun t => !E.is_valid t) < rest.length then
            i + (rest.findIdx (fun t => !E.is_valid t) : Int)
          else -1)
        else NA_ind := by
  intro rest
  induction rest with
  | nil =>
    intro i na lookup _
    by_cases hna : na = -1 <;> simp [match_table_loop, hna]
  | cons t rest ih =>
    intro i na lookup hi
    unfold match_table_loop
    rw [List.findIdx_cons]
    by_cases hna : na = -1
    · cases hvt : E.is_valid t
      · have hi1 : i ≠ -1 := by omega
        simp [hna, Element.to_bool, hvt, ih (i + 1) i _ (by omega), hi1]
      · simp only [hna, Element.to_bool, hvt, Bool.not_true, Bool.and_false,
          Bool.false_eq_true, if_false, decide_True, cond_false, if_true,
          List.length_cons, Nat.add_lt_add_iff_right]
        rw [ih (i + 1) (-1) _ (by omega)]
        simp only [if_true]
        split
        · push_cast; omega
        · rfl
    · simp [hna, ih (i + 1) na _ (by omega)]

theorem match_loop_eq_map {T : Type} (E : Element T) (NA_ind : Int) (lookup : List T) :
    ∀ (rest : List T) (result : List Int),
      match_loop E NA_ind lookup rest result
        = result ++ rest.map (match_cell E NA_ind lookup) := by
  intro rest
  induction rest with
  | nil => intro result; simp [match_loop]
  | cons x rest ih =>
    intro result
    unfold match_loop
    simp only [List.map_cons, match_cell]
    split
    · split
      · rw [ih]; simp
      · rw [ih]; simp
    · split
      · rw [ih]; simp
      · rw [ih]; simp

/-! ## `operator==` -/

/-- One iteration of the main loop of `operator==` when both recycled
accesses are in range. -/
theorem operator_eq_loop_step {T : Type} (E : Element T) (sa : List T)
    (o : geometry_vector T) (n i : Nat) (result : List (Option Logical)) (x y : T)
    (ha : sa ≠ []) (hb : o._storage ≠ [])
    (hx : sa[i % sa.length]? = some x) (hy : o._storage[i % o._storage.length]? = some y) :
    operator_eq_loop E sa (some o) (n + 1) i result =
      operator_eq_loop E sa (some o) n (i + 1)
        (result.set i (some (spec_equals_cell E x y))) := by
  have hla : sa.length ≠ 0 := fun h => ha (List.length_eq_zero.mp h)
  have hlb : o._storage.length ≠ 0 := fun h => hb (List.length_eq_zero.mp h)
  rw [operator_eq_loop]
  simp only [umod, hla, if_false, index, hx, recast_index, geometry_vector.size, hlb, hy,
    Element.to_bool, spec_equals_cell, Rboolean]
  cases hvx : E.is_valid x <;> cases hvy : E.is_valid y <;> cases hxy : E.eq x y <;> simp

/-- The main loop of `operator==` on two non-empty vectors of one kind
returns, keeps the length of `result`, leaves the cells below `i` alone and
fills the `n` cells from `i` on with the comparison at the recycled
positions. -/
theorem operator_eq_loop_ok {T : Type} (E : Element T) (sa : List T)
    (o : geometry_vector T) (ha : sa ≠ []) (hb : o._storage ≠ []) :
    ∀ (n i : Nat) (result : List (Option Logical)), i + n ≤ result.length →
      ∃ r, operator_eq_loop E sa (some o) n i result = Except.ok r ∧
        r.length = result.length ∧
        (∀ j, j < i → r[j]? = result[j]?) ∧
        (∀ j, i ≤ j → j < i + n →
          ∃ x y, sa[j % sa.length]? = some x ∧
            o._storage[j % o._storage.length]? = some y ∧
            r[j]? = some (some (spec_equals_cell E x y))) := by
  have hla : 0 < sa.length := List.length_pos.mpr ha
  have hlb : 0 < o._storage.length := List.length_pos.mpr hb
  intro n
  induction n with
  | zero =>
    intro i result _
    refine ⟨result, rfl, rfl, fun _ _ => rfl, ?_⟩
    intro j h1 h2
    omega
  | succ n ih =>
    intro i result hlen
    have hxa : i % sa.length < sa.length := Nat.mod_lt _ hla
    have hyb : i % o._storage.length < o._storage.length := Nat.mod_lt _ hlb
    have hx := List.getElem?_eq_getElem hxa
    have hy := List.getElem?_eq_getElem hyb
    rw [operator_eq_loop_step E sa o n i result _ _ ha hb hx hy]
    obtain ⟨r, hr, hrl, hlow, hhigh⟩ :=
      ih (i + 1) (result.set i (some (spec_equals_cell E sa[i % sa.length]
        o._storage[i % o._storage.length]))) (by simp; omega)
    refine ⟨r, hr, by simpa using hrl, ?_, ?_⟩
    · intro j hj
      rw [hlow j (by omega), List.getElem?_set_ne (by omega)]
    · intro j h1 h2
      by_cases hji : j = i
      · subst hji
        refine ⟨_, _, hx, hy, ?_⟩
        rw [hlow j (by omega), List.getElem?_set_self (by omega)]
      · exact hhigh j (by omega) (by omega)

/-- Shared form of the result of `operator==` on two non-empty vectors of one
concrete kind. -/
theorem operator_eq_same_kind {T : Type} (E : Element T) (a b : geometry_vector T)
    (hk : a.type_id = b.type_id) (ha : a._storage ≠ []) (hb : b._storage ≠ []) :
    ∃ r, operator_eq E a b = Except.ok r ∧ r.length = max a.size b.size ∧
      ∀ i, i < max a.size b.size →
        ∃ x y, a._storage[i % a.size]? = some x ∧ b._storage[i % b.size]? = some y ∧
          r[i]? = some (some (spec_equals_cell E x y)) := by
  unfold operator_eq
  have hcast : dynamic_cast a b = some b := by simp [dynamic_cast, hk]
  have hne : ¬ (a.type_id ≠ b.type_id ∧ 0 < a.size) := fun h => h.1 hk
  simp only [hne, if_false, hcast]
  obtain ⟨r, hr, hrl, _, hhigh⟩ := operator_eq_loop_ok E a._storage b ha hb
    (max a.size b.size) 0 (List.replicate (max a.size b.size) none) (by simp)
  refine ⟨r, hr, by simpa using hrl, ?_⟩
  intro i hi
  exact hhigh i (Nat.zero_le _) (by omega)

/-! ## The claims on `duplicated` and `any_duplicated` -/

/-- C1 (the code departs from the claim): `duplicated` should mark a
position exactly when its element repeats an earlier one, so that
`[A, NA, B, A]` gives `[false, false, false, true]`.  The loop of the source
pushes `TRUE` for the first NA element: on `[A, NA, B, A]` it returns
`[false, true, false, true]`. -/
theorem duplicated_marks_first_NA :
    sampleElement.Lawful ∧
      duplicated sampleElement ⟨0, [Sample.A, Sample.NA, Sample.B, Sample.A]⟩
        = [Logical.FALSE, Logical.TRUE, Logical.FALSE, Logical.TRUE] :=
  ⟨sampleElement_lawful, by decide⟩

/-- C2 (the code departs from the claim): the mask of `duplicated` should
be as long as the vector.  The loop of the source pushes nothing for an NA
element after the first one: on `[NA, NA]`, of size 2, the mask is `[true]`,
of length 1. -/
theorem duplicated_drops_later_NA :
    duplicated sampleElement ⟨0, [Sample.NA, Sample.NA]⟩ = [Logical.TRUE] ∧
      (duplicated sampleElement ⟨0, [Sample.NA, Sample.NA]⟩).length
        ≠ geometry_vector.size (⟨0, [Sample.NA, Sample.NA]⟩ : geometry_vector Sample) := by
  decide

/-- C3 (the code departs from the claim): `any_duplicated` should return
the position of the first repeat, 2 on `[A, B, A]`.  The source stores
`true` in its `int` result as soon as an element occurs again later in the
vector: on `[A, B, A]` it returns 1. -/
theorem any_duplicated_returns_true_as_index :
    any_duplicated sampleElement ⟨0, [Sample.A, Sample.B, Sample.A]⟩ = 1 := by
  decide

/-! ## The claims on `unique` -/

/-- C4: under the element contract, `unique(v)` is of the kind of `v` and
its storage is the subsequence of `v` at the positions whose element is
valid and equals no earlier element, or is the first NA of `v`, the NA being
stored as `NA_value()`; when every NA element of `v` is `NA_value()` the
storage is that subsequence itself. -/
theorem unique_eq_first_occurrences {T : Type} (E : Element T) (hE : E.Lawful)
    (v : geometry_vector T) :
    (unique E v).type_id = v.type_id ∧
      (unique E v)._storage = (spec_unique E v._storage).map E.canonical ∧
      ((∀ x ∈ v._storage, E.is_valid x = false → x = E.NA_value) →
        (unique E v)._storage = spec_unique E v._storage) := by
  have hmain : (unique E v)._storage = (spec_unique E v._storage).map E.canonical := by
    have h := unique_loop_spec E hE v._storage []
    simpa [unique, spec_unique] using h
  refine ⟨rfl, hmain, ?_⟩
  intro hna
  rw [hmain]
  conv_rhs => rw [← List.map_id (spec_unique E v._storage)]
  apply List.map_congr_left
  intro x hx
  have hxv := mem_of_mem_spec_unique E v._storage x hx
  cases hvx : E.is_valid x
  · simp [Element.canonical, hvx, hna x hxv hvx]
  · simp [Element.canonical, hvx]

/-- Instance of C4 on `[A, NA, B, A]`: `unique` gives `[A, NA, B]`. -/
theorem unique_eq_first_occurrences_witness :
    sampleElement.Lawful ∧
      (unique sampleElement ⟨0, [Sample.A, Sample.NA, Sample.B, Sample.A]⟩)._storage
        = [Sample.A, Sample.NA, Sample.B] ∧
      spec_unique sampleElement [Sample.A, Sample.NA, Sample.B, Sample.A]
        = [Sample.A, Sample.NA, Sample.B] := by
  have h := unique_eq_first_occurrences sampleElement sampleElement_lawful
    ⟨0, [Sample.A, Sample.NA, Sample.B, Sample.A]⟩
  have hs : spec_unique sampleElement [Sample.A, Sample.NA, Sample.B, Sample.A]
      = [Sample.A, Sample.NA, Sample.B] := by decide
  refine ⟨sampleElement_lawful, ?_, hs⟩
  rw [h.2.2 (by decide), hs]

/-- C5: under the element contract, two valid elements at distinct
positions of `unique(v)` are never equal, and `unique(v)` holds at most one
NA element. -/
theorem unique_no_repeats {T : Type} (E : Element T) (hE : E.Lawful)
    (v : geometry_vector T) :
    (∀ (i j : Nat) (x y : T), i ≠ j → (unique E v)._storage[i]? = some x →
        (unique E v)._storage[j]? = some y →
        E.is_valid x = true → E.is_valid y = true → E.eq x y = false) ∧
      (unique E v)._storage.countP (fun x => !E.is_valid x) ≤ 1 := by
  have hc : Clean E (unique E v)._storage := unique_storage_clean E hE v._storage
  have hp := List.pairwise_iff_getElem.mp hc.1
  refine ⟨?_, ?_⟩
  · intro i j x y hij hx hy hvx hvy
    obtain ⟨hi, hxi⟩ := List.getElem?_eq_some.mp hx
    obtain ⟨hj, hyj⟩ := List.getElem?_eq_some.mp hy
    subst hxi hyj
    rcases Nat.lt_or_gt_of_ne hij with hlt | hgt
    · exact (hp i j hi hj hlt).1 hvx hvy
    · have hyx := (hp j i hj hi hgt).1 hvy hvx
      cases hxy : E.eq (unique E v)._storage[i] (unique E v)._storage[j]
      · rfl
      · rw [hE.eq_symm _ _ hvx hvy hxy] at hyx
        exact absurd hyx (by decide)
  · apply countP_le_one_of_pairwise
    refine List.Pairwise.imp ?_ hc.1
    intro a b hab h
    apply hab.2
    simpa using h

/-- Instance of C5 on `[A, NA, B, A, NA]`. -/
theorem unique_no_repeats_witness :
    sampleElement.Lawful ∧
      (∀ (i j : Nat) (x y : Sample), i ≠ j →
        (unique sampleElement
          ⟨0, [Sample.A, Sample.NA, Sample.B, Sample.A, Sample.NA]⟩)._storage[i]? = some x →
        (unique sampleElement
          ⟨0, [Sample.A, Sample.NA, Sample.B, Sample.A, Sample.NA]⟩)._storage[j]? = some y →
        sampleElement.is_valid x = true → sampleElement.is_valid y = true →
        sampleElement.eq x y = false) ∧
      (unique sampleElement
        ⟨0, [Sample.A, Sample.NA, Sample.B, Sample.A, Sample.NA]⟩)._storage.countP
          (fun x => !sampleElement.is_valid x) ≤ 1 :=
  ⟨sampleElement_lawful,
    unique_no_repeats sampleElement sampleElement_lawful
      ⟨0, [Sample.A, Sample.NA, Sample.B, Sample.A, Sample.NA]⟩⟩

/-- C6: under the element contract, `unique` is idempotent:
`unique(unique(v))` is `unique(v)`, the same elements in the same order. -/
theorem unique_idempotent {T : Type} (E : Element T) (hE : E.Lawful)
    (v : geometry_vector T) :
    unique E (unique E v) = unique E v := by
  have hc := unique_storage_clean E hE v._storage
  have h := unique_loop_of_clean E hE (unique_loop E v._storage [] false) [] false hc
    (fun a ha => absurd ha (List.not_mem_nil a)) (fun h => absurd h (by decide))
  simp only [unique, h, List.nil_append]

/-- Instance of C6 on `[A, NA, B, A, NA]`. -/
theorem unique_idempotent_witness :
    sampleElement.Lawful ∧
      unique sampleElement (unique sampleElement
          ⟨0, [Sample.A, Sample.NA, Sample.B, Sample.A, Sample.NA]⟩)
        = unique sampleElement ⟨0, [Sample.A, Sample.NA, Sample.B, Sample.A, Sample.NA]⟩ :=
  ⟨sampleElement_lawful,
    unique_idempotent sampleElement sampleElement_lawful
      ⟨0, [Sample.A, Sample.NA, Sample.B, Sample.A, Sample.NA]⟩⟩

/-! ## The claim on `match` -/

theorem first_match_position_spec {T : Type} (p : T → Bool) (table : List T) :
    ((∃ t ∈ table, p t = true) →
        ∃ q, spec_first_index p table q ∧ first_match_position p table = (q : Int) + 1) ∧
      (first_match_position p table = R_NaInt ↔ ∀ t ∈ table, p t = false) := by
  unfold first_match_position
  by_cases h : table.findIdx p < table.length
  · rw [if_pos h]
    refine ⟨fun _ => ⟨_, spec_first_index_findIdx p table h, rfl⟩, ?_⟩
    constructor
    · intro hna
      unfold R_NaInt at hna
      omega
    · intro hall
      have := List.findIdx_eq_length.mpr hall
      omega
  · rw [if_neg h]
    have hall : ∀ t ∈ table, p t = false := by
      apply List.findIdx_eq_length.mp
      have : table.findIdx p ≤ table.length := List.findIdx_le_length p
      omega
    refine ⟨?_, fun _ => hall, fun _ => rfl⟩
    rintro ⟨t, ht, hpt⟩
    rw [hall t ht] at hpt
    exact absurd hpt (by decide)

/-- On a table of the receiver's kind, `match` maps every element of the
receiver to the position of its first match. -/
theorem match_same_kind {T : Type} (E : Element T) (v table : geometry_vector T)
    (hk : v.type_id = table.type_id) :
    match_ E v table = v._storage.map (fun x =>
      if E.is_valid x = true then first_match_position (fun t => E.eq t x) table._storage
      else first_match_position (fun t => !E.is_valid t) table._storage) := by
  unfold match_
  have hfst := match_table_loop_fst E table._storage 0 (-1) [] (le_refl 0)
  have hsnd := match_table_loop_snd E table._storage 0 (-1) []
  simp only [if_true, List.nil_append] at hfst hsnd
  simp only [hk, ne_eq, not_true_eq_false, if_false, match_loop_eq_map, List.nil_append,
    hfst, hsnd]
  apply List.map_congr_left
  intro x _
  unfold match_cell first_match_position std_find
  cases hvx : E.is_valid x
  · simp only [Bool.not_false, if_true, Bool.false_eq_true, if_false]
    by_cases h : List.findIdx (fun t => !E.is_valid t) table._storage < table._storage.length
    · have hne : ¬ ((0 : Int) + (List.findIdx (fun t => !E.is_valid t) table._storage : Int)
          = -1) := by omega
      simp only [h, if_true, hne, if_false]
      omega
    · simp only [h, if_false, if_true]
  · simp only [Bool.not_true, Bool.false_eq_true, if_false, if_true]
    by_cases h : List.findIdx (fun e => E.eq e x) table._storage = table._storage.length
    · have h2 : ¬ List.findIdx (fun e => E.eq e x) table._storage < table._storage.length := by
        omega
      simp only [h, if_true, h2, if_false]
      rw [if_neg (by omega)]
    · have h2 : List.findIdx (fun e => E.eq e x) table._storage < table._storage.length := by
        have : List.findIdx (fun e => E.eq e x) table._storage ≤ table._storage.length :=
          List.findIdx_le_length _
        omega
      simp only [h, if_false, h2, if_true]

/-- C7: for a table of the receiver's kind, `match(v, table)` is as long as
`v`; the entry for a valid `v[i]` is `p + 1` for the first position `p` of
the table whose element equals `v[i]` when there is one, and is NA exactly
when no element of the table equals `v[i]`; the entry for an NA `v[i]` is
`q + 1` for the position `q` of the first NA of the table when there is one,
and is NA exactly when the table holds no NA. -/
theorem match_first_positions {T : Type} (E : Element T) (v table : geometry_vector T)
    (hk : v.type_id = table.type_id) :
    (match_ E v table).length = v.size ∧
      ∀ (i : Nat) (x : T), v._storage[i]? = some x →
        ∃ r : Int, (match_ E v table)[i]? = some r ∧
          (E.is_valid x = true →
            ((∃ t ∈ table._storage, E.eq t x = true) →
              ∃ p, spec_first_index (fun t => E.eq t x) table._storage p ∧
                r = (p : Int) + 1) ∧
            (r = R_NaInt ↔ ∀ t ∈ table._storage, E.eq t x = false)) ∧
          (E.is_valid x = false →
            ((∃ t ∈ table._storage, E.is_valid t = false) →
              ∃ q, spec_first_index (fun t => !E.is_valid t) table._storage q ∧
                r = (q : Int) + 1) ∧
            (r = R_NaInt ↔ ∀ t ∈ table._storage, E.is_valid t = true)) := by
  rw [match_same_kind E v table hk]
  refine ⟨by simp [geometry_vector.size], ?_⟩
  intro i x hx
  rw [List.getElem?_map, hx]
  refine ⟨_, rfl, ?_, ?_⟩
  · intro hvx
    simp only [hvx, if_true]
    exact first_match_position_spec (fun t => E.eq t x) table._storage
  · intro hvx
    simp only [hvx, Bool.false_eq_true, if_false]
    have h := first_match_position_spec (fun t => !E.is_valid t) table._storage
    simpa using h

/-- Instance of C7: `match([A, NA, B, A], [B, NA])` is `[NA, 2, 1, NA]`. -/
theorem match_first_positions_witness :
    (0 : Nat) = 0 ∧
      match_ sampleElement ⟨0, [Sample.A, Sample.NA, Sample.B, Sample.A]⟩
          ⟨0, [Sample.B, Sample.NA]⟩ = [R_NaInt, 2, 1, R_NaInt] ∧
      (match_ sampleElement ⟨0, [Sample.A, Sample.NA, Sample.B, Sample.A]⟩
          ⟨0, [Sample.B, Sample.NA]⟩).length
        = geometry_vector.size
            (⟨0, [Sample.A, Sample.NA, Sample.B, Sample.A]⟩ : geometry_vector Sample) :=
  ⟨rfl, by decide,
    (match_first_positions sampleElement ⟨0, [Sample.A, Sample.NA, Sample.B, Sample.A]⟩
      ⟨0, [Sample.B, Sample.NA]⟩ rfl).1⟩

/-! ## The claims on `equals` -/

/-- C8: for two non-empty vectors of one concrete kind, `equals(a, b)`
returns (no access is out of range) a result of length
`max(size(a), size(b))` whose cell `i` is NA when `a[i mod size(a)]` or
`b[i mod size(b)]` is NA, and otherwise is true when the two elements are
equal and false when they are not; nothing is assumed on how the two
lengths divide. -/
theorem equals_recycled_elementwise {T : Type} (E : Element T) (a b : geometry_vector T)
    (hk : a.type_id = b.type_id) (ha : a._storage ≠ []) (hb : b._storage ≠ []) :
    ∃ r, operator_eq E a b = Except.ok r ∧ r.length = max a.size b.size ∧
      ∀ i, i < max a.size b.size →
        ∃ x y, a._storage[i % a.size]? = some x ∧ b._storage[i % b.size]? = some y ∧
          ((E.is_valid x = false ∨ E.is_valid y = false) →
            r[i]? = some (some Logical.NA_LOGICAL)) ∧
          (E.is_valid x = true → E.is_valid y = true →
            (E.eq x y = true → r[i]? = some (some Logical.TRUE)) ∧
            (E.eq x y = false → r[i]? = some (some Logical.FALSE))) := by
  obtain ⟨r, hr, hlen, hcells⟩ := operator_eq_same_kind E a b hk ha hb
  refine ⟨r, hr, hlen, ?_⟩
  intro i hi
  obtain ⟨x, y, hx, hy, hcell⟩ := hcells i hi
  refine ⟨x, y, hx, hy, ?_, ?_⟩
  · intro hna
    rw [hcell, spec_equals_cell, if_pos hna]
  · intro hvx hvy
    have hna : ¬ (E.is_valid x = false ∨ E.is_valid y = false) := by
      rw [hvx, hvy]; decide
    refine ⟨fun hxy => ?_, fun hxy => ?_⟩
    · rw [hcell, spec_equals_cell, if_neg hna, if_pos hxy]
    · rw [hcell, spec_equals_cell, if_neg hna, if_neg (by rw [hxy]; decide)]

/-- Instance of C8 on `[A, B]` and `[A, NA, B]`, of lengths 2 and 3: the
result is `[true, NA, false]`. -/
theorem equals_recycled_elementwise_witness :
    ((⟨0, [Sample.A, Sample.B]⟩ : geometry_vector Sample)._storage ≠ [] ∧
      (⟨0, [Sample.A, Sample.NA, Sample.B]⟩ : geometry_vector Sample)._storage ≠ []) ∧
    operator_eq sampleElement ⟨0, [Sample.A, Sample.B]⟩ ⟨0, [Sample.A, Sample.NA, Sample.B]⟩
      = Except.ok [some Logical.TRUE, some Logical.NA_LOGICAL, some Logical.FALSE] ∧
    ∃ r, operator_eq sampleElement ⟨0, [Sample.A, Sample.B]⟩
        ⟨0, [Sample.A, Sample.NA, Sample.B]⟩ = Except.ok r ∧ r.length = 3 :=
  ⟨⟨by decide, by decide⟩, by rfl,
    (equals_recycled_elementwise sampleElement ⟨0, [Sample.A, Sample.B]⟩
      ⟨0, [Sample.A, Sample.NA, Sample.B]⟩ rfl (by decide) (by decide)).imp
      (fun _ h => ⟨h.1, h.2.1⟩)⟩

/-- C9 (the code departs from the claim): with exactly one operand empty,
`equals` should return a result of length `max(size(a), size(b))`.  The
source takes `i % size()` with no guard: with a valid first element on the
non-empty side, the first iteration divides by zero, whichever side is the
empty one. -/
theorem equals_empty_operand_modulo_by_zero :
    operator_eq sampleElement ⟨0, [Sample.A]⟩ ⟨0, []⟩
        = Except.error Failure.modulo_by_zero ∧
      operator_eq sampleElement ⟨0, []⟩ ⟨0, [Sample.A]⟩
        = Except.error Failure.modulo_by_zero := by
  constructor <;> rfl

/-- C10 as stated fails: on `a = [A]`, `b = [A, B]` the shorter length is
`m = 1`, positions `0` and `0 + 1 * m` are both below 2, and the result is
`[true, false]`. -/
theorem recycling_law_counterexample :
    ∃ r, operator_eq sampleElement ⟨0, [Sample.A]⟩ ⟨0, [Sample.A, Sample.B]⟩ = Except.ok r ∧
      0 + 1 * min (geometry_vector.size (⟨0, [Sample.A]⟩ : geometry_vector Sample))
          (geometry_vector.size (⟨0, [Sample.A, Sample.B]⟩ : geometry_vector Sample))
        < max (geometry_vector.size (⟨0, [Sample.A]⟩ : geometry_vector Sample))
          (geometry_vector.size (⟨0, [Sample.A, Sample.B]⟩ : geometry_vector Sample)) ∧
      r[0]? ≠ r[0 + 1 * min (geometry_vector.size (⟨0, [Sample.A]⟩ : geometry_vector Sample))
          (geometry_vector.size (⟨0, [Sample.A, Sample.B]⟩ : geometry_vector Sample))]? :=
  ⟨[some Logical.TRUE, some Logical.FALSE], by rfl, by decide, by decide⟩

/-- C10, amended: for two non-empty vectors of one concrete kind, with `m`
the smaller size, and positions `i` and `i + k * m` both below the larger
size, the cells `i` and `i + k * m` of `equals(a, b)` agree whenever the
longer operand holds the same element at these two positions (the shorter
operand is recycled, so it always does). -/
theorem equals_recycling_law {T : Type} (E : Element T) (a b : geometry_vector T)
    (hk : a.type_id = b.type_id) (ha : a._storage ≠ []) (hb : b._storage ≠ [])
    (i k : Nat) (hi : i < max a.size b.size)
    (hik : i + k * min a.size b.size < max a.size b.size)
    (hlong_b : a.size ≤ b.size →
      b._storage[i]? = b._storage[i + k * min a.size b.size]?)
    (hlong_a : b.size ≤ a.size →
      a._storage[i]? = a._storage[i + k * min a.size b.size]?) :
    ∃ r, operator_eq E a b = Except.ok r ∧ r[i]? = r[i + k * min a.size b.size]? := by
  obtain ⟨r, hr, _, hcells⟩ := operator_eq_same_kind E a b hk ha hb
  refine ⟨r, hr, ?_⟩
  obtain ⟨x, y, hx, hy, hcell⟩ := hcells i hi
  obtain ⟨x2, y2, hx2, hy2, hcell2⟩ := hcells _ hik
  have hpa : 0 < a.size := List.length_pos.mpr ha
  have hpb : 0 < b.size := List.length_pos.mpr hb
  have hxx : x = x2 ∧ y = y2 := by
    rcases Nat.le_total a.size b.size with hab | hba
    · have hmin : min a.size b.size = a.size := Nat.min_eq_left hab
      have hmax : max a.size b.size = b.size := Nat.max_eq_right hab
      rw [hmin] at hx2 hy2 hik
      rw [hmax] at hi hik
      have h1 := hlong_b hab
      rw [hmin] at h1
      rw [Nat.add_mul_mod_self_right, hx] at hx2
      rw [Nat.mod_eq_of_lt hi] at hy
      rw [Nat.mod_eq_of_lt hik, ← h1, hy] at hy2
      exact ⟨Option.some.inj hx2, Option.some.inj hy2⟩
    · have hmin : min a.size b.size = b.size := Nat.min_eq_right hba
      have hmax : max a.size b.size = a.size := Nat.max_eq_left hba
      rw [hmin] at hx2 hy2 hik
      rw [hmax] at hi hik
      have h1 := hlong_a hba
      rw [hmin] at h1
      rw [Nat.add_mul_mod_self_right, hy] at hy2
      rw [Nat.mod_eq_of_lt hi] at hx
      rw [Nat.mod_eq_of_lt hik, ← h1, hx] at hx2
      exact ⟨Option.some.inj hx2, Option.some.inj hy2⟩
  rw [hcell, hcell2, hxx.1, hxx.2]

/-- Instance of the amended C10 on `a = [A]`, `b = [B, A, B]`, `i = 0`,
`k = 2`: cells 0 and 2 agree. -/
theorem equals_recycling_law_witness :
    ∃ r, operator_eq sampleElement ⟨0, [Sample.A]⟩ ⟨0, [Sample.B, Sample.A, Sample.B]⟩
        = Except.ok r ∧
      r[0]? = r[0 + 2 * min (geometry_vector.size (⟨0, [Sample.A]⟩ : geometry_vector Sample))
          (geometry_vector.size
            (⟨0, [Sample.B, Sample.A, Sample.B]⟩ : geometry_vector Sample))]? :=
  equals_recycling_law sampleElement ⟨0, [Sample.A]⟩ ⟨0, [Sample.B, Sample.A, Sample.B]⟩
    rfl (by decide) (by decide) 0 2 (by decide) (by decide) (fun _ => by decide)
    (fun h => absurd h (by decide))

/-! ## The claims on `equals` and `not_equals` together -/

theorem operator_ne_loop_eq_exchanged {T : Type} (E : Element T) (sa : List T)
    (o : Option (geometry_vector T)) :
    ∀ (n i : Nat) (result : List (Option Logical)),
      operator_ne_loop E sa o n i result = operator_eq_loop E.exchanged sa o n i result := by
  intro n
  induction n with
  | zero => intro i result; rfl
  | succ n ih =>
    intro i result
    rw [operator_ne_loop, operator_eq_loop]
    simp only [ih, Element.exchanged, Element.to_bool]

theorem operator_ne_eq_exchanged {T : Type} (E : Element T) (a b : geometry_vector T) :
    operator_ne E a b = operator_eq E.exchanged a b := by
  unfold operator_ne operator_eq
  simp only [operator_ne_loop_eq_exchanged]

/-- C11 (the code departs from the claim): on operands of different kinds
`equals` and `not_equals` should hold `false` at every position below
`size(a)`.  The `return` of the source stands inside the loop that writes
the `false` cells, so only `result[0]` is written: on `a = [A, B]` and a `b`
of another kind, cell 1 of both results is never assigned. -/
theorem equals_mismatch_writes_first_cell_only :
    operator_eq sampleElement ⟨0, [Sample.A, Sample.B]⟩ ⟨1, [Sample.A]⟩
        = Except.ok [some Logical.FALSE, none] ∧
      operator_ne sampleElement ⟨0, [Sample.A, Sample.B]⟩ ⟨1, [Sample.A]⟩
        = Except.ok [some Logical.FALSE, none] := by
  constructor <;> rfl

/-- C12: for two non-empty vectors of one concrete kind, when the element's
`!=` is the negation of its `==`, `equals` and `not_equals` both return
results of length `max(size(a), size(b))`, and at every position the cell of
`not_equals` is NA when the cell of `equals` is NA, `false` when it is `true`
and `true` when it is `false`. -/
theorem not_equals_negates_equals {T : Type} (E : Element T) (a b : geometry_vector T)
    (hk : a.type_id = b.type_id) (ha : a._storage ≠ []) (hb : b._storage ≠ [])
    (hne : ∀ x y, E.ne x y = !E.eq x y) :
    ∃ req rne, operator_eq E a b = Except.ok req ∧ operator_ne E a b = Except.ok rne ∧
      req.length = max a.size b.size ∧ rne.length = max a.size b.size ∧
      ∀ i, i < max a.size b.size →
        ∃ c, req[i]? = some (some c) ∧ rne[i]? = some (some (spec_negation c)) ∧
          (rne[i]? = some (some Logical.NA_LOGICAL) ↔
            req[i]? = some (some Logical.NA_LOGICAL)) := by
  obtain ⟨req, hreq, hleq, hceq⟩ := operator_eq_same_kind E a b hk ha hb
  obtain ⟨rne, hrne, hlne, hcne⟩ := operator_eq_same_kind E.exchanged a b hk ha hb
  rw [← operator_ne_eq_exchanged] at hrne
  refine ⟨req, rne, hreq, hrne, hleq, hlne, ?_⟩
  intro i hi
  obtain ⟨x, y, hx, hy, h1⟩ := hceq i hi
  obtain ⟨x2, y2, hx2, hy2, h2⟩ := hcne i hi
  rw [hx] at hx2
  rw [hy] at hy2
  have hxx : x2 = x := (Option.some.inj hx2).symm
  have hyy : y2 = y := (Option.some.inj hy2).symm
  subst hxx hyy
  have hcell : spec_equals_cell E.exchanged x2 y2 = spec_negation (spec_equals_cell E x2 y2) := by
    simp only [spec_equals_cell, Element.exchanged, hne]
    cases E.is_valid x2 <;> cases E.is_valid y2 <;> cases E.eq x2 y2 <;> simp [spec_negation]
  rw [hcell] at h2
  refine ⟨_, h1, h2, ?_⟩
  rw [h1, h2]
  cases spec_equals_cell E x2 y2 <;> simp [spec_negation]

/-- Instance of C12 on `[A, B]` and `[A, NA, B]`: `equals` gives
`[true, NA, false]` and `not_equals` gives `[false, NA, true]`. -/
theorem not_equals_negates_equals_witness :
    (∀ x y, sampleElement.ne x y = !sampleElement.eq x y) ∧
      operator_eq sampleElement ⟨0, [Sample.A, Sample.B]⟩ ⟨0, [Sample.A, Sample.NA, Sample.B]⟩
        = Except.ok [some Logical.TRUE, some Logical.NA_LOGICAL, some Logical.FALSE] ∧
      operator_ne sampleElement ⟨0, [Sample.A, Sample.B]⟩ ⟨0, [Sample.A, Sample.NA, Sample.B]⟩
        = Except.ok [some Logical.FALSE, some Logical.NA_LOGICAL, some Logical.TRUE] ∧
      ∃ req rne,
        operator_eq sampleElement ⟨0, [Sample.A, Sample.B]⟩
          ⟨0, [Sample.A, Sample.NA, Sample.B]⟩ = Except.ok req ∧
        operator_ne sampleElement ⟨0, [Sample.A, Sample.B]⟩
          ⟨0, [Sample.A, Sample.NA, Sample.B]⟩ = Except.ok rne ∧
        req.length = 3 ∧ rne.length = 3 := by
  refine ⟨fun _ _ => rfl, by rfl, by rfl, ?_⟩
  obtain ⟨req, rne, h1, h2, h3, h4, _⟩ :=
    not_equals_negates_equals sampleElement ⟨0, [Sample.A, Sample.B]⟩
      ⟨0, [Sample.A, Sample.NA, Sample.B]⟩ rfl (by decide) (by decide) (fun _ _ => rfl)
  exact ⟨req, rne, h1, h2, h3, h4⟩

/-! ## The claim on `match` against a table of another kind -/

/-- C18: for a table of a different concrete kind, `match(v, table)` is as
long as `v` and every entry is NA, whatever `v` and the table hold. -/
theorem match_other_kind_all_NA {T : Type} (E : Element T) (v table : geometry_vector T)
    (hk : v.type_id ≠ table.type_id) :
    (match_ E v table).length = v.size ∧
      ∀ i, i < v.size → (match_ E v table)[i]? = some R_NaInt := by
  unfold match_
  rw [if_pos hk]
  refine ⟨List.length_replicate _ _, ?_⟩
  intro i hi
  rw [List.getElem?_replicate, if_pos hi]

/-- Instance of C18 on `v = [A, NA, B]` and a table `[B, NA]` of another
kind: the result is `[NA, NA, NA]`. -/
theorem match_other_kind_all_NA_witness :
    (⟨0, [Sample.A, Sample.NA, Sample.B]⟩ : geometry_vector Sample).type_id
        ≠ (⟨1, [Sample.B, Sample.NA]⟩ : geometry_vector Sample).type_id ∧
      match_ sampleElement ⟨0, [Sample.A, Sample.NA, Sample.B]⟩ ⟨1, [Sample.B, Sample.NA]⟩
        = [R_NaInt, R_NaInt, R_NaInt] ∧
      (match_ sampleElement ⟨0, [Sample.A, Sample.NA, Sample.B]⟩
        ⟨1, [Sample.B, Sample.NA]⟩).length = 3 :=
  ⟨by decide, by decide,
    (match_other_kind_all_NA sampleElement ⟨0, [Sample.A, Sample.NA, Sample.B]⟩
      ⟨1, [Sample.B, Sample.NA]⟩ (by decide)).1⟩

/-! ## The claim on `combine` -/

theorem combine_loop_same_kind {T : Type} (tid : Nat) :
    ∀ (others : List (geometry_vector T)) (ns : List T),
      (∀ c ∈ others, c.type_id = tid) →
      combine_loop tid others ns
        = Except.ok (ns ++ (others.map (fun c => c._storage)).flatten) := by
  intro others
  induction others with
  | nil => intro ns _; simp [combine_loop]
  | cons c rest ih =>
    intro ns h
    have hc : c.type_id = tid := h c (List.mem_cons_self _ _)
    rw [combine_loop, if_neg (by rw [hc]; exact fun h => h rfl),
      ih _ (fun d hd => h d (List.mem_cons_of_mem _ hd))]
    simp

theorem combine_loop_other_kind {T : Type} (tid : Nat) :
    ∀ (others : List (geometry_vector T)) (ns : List T),
      (∃ c ∈ others, c.type_id ≠ tid) →
      combine_loop tid others ns = Except.error Failure.stop_incompatible_vector_types := by
  intro others
  induction others with
  | nil => intro ns h; obtain ⟨c, hc, _⟩ := h; exact absurd hc (List.not_mem_nil c)
  | cons c rest ih =>
    intro ns h
    rw [combine_loop]
    by_cases hc : tid ≠ c.type_id
    · rw [if_pos hc]
    · rw [if_neg hc]
      apply ih
      obtain ⟨d, hd, hdk⟩ := h
      rcases List.mem_cons.mp hd with h1 | h1
      · subst h1
        exact absurd (fun h2 => hdk h2.symm) hc
      · exact ⟨d, h1, hdk⟩

/-- C17: when every `others[k]` is of the kind of `v`, `combine(v, others)`
returns a vector of that kind whose storage is
`v ++ others[0] ++ others[1] ++ ...`, of length the sum of all sizes; when
some `others[k]` is of another kind it fails with the type-mismatch stop and
returns no vector. -/
theorem combine_concatenates {T : Type} (v : geometry_vector T)
    (others : List (geometry_vector T)) :
    ((∀ c ∈ others, c.type_id = v.type_id) →
        ∃ r, combine v others = Except.ok r ∧ r.type_id = v.type_id ∧
          r._storage = v._storage ++ (others.map (fun c => c._storage)).flatten ∧
          r.size = v.size + (others.map (fun c => c.size)).sum) ∧
      ((∃ c ∈ others, c.type_id ≠ v.type_id) →
        combine v others = Except.error Failure.stop_incompatible_vector_types) := by
  constructor
  · intro h
    refine ⟨⟨v.type_id, v._storage ++ (others.map (fun c => c._storage)).flatten⟩,
      ?_, rfl, rfl, ?_⟩
    · unfold combine
      rw [combine_loop_same_kind v.type_id others v._storage h]
    · simp [geometry_vector.size, List.length_flatten, List.map_map, Function.comp_def]
  · intro h
    unfold combine
    rw [combine_loop_other_kind v.type_id others v._storage h]

/-- Instance of C17: `combine([A, B], [[C]])` is `[A, B, C]`, and combining
with a vector of another kind stops. -/
theorem combine_concatenates_witness :
    (∃ r, combine ⟨0, [Sample.A, Sample.B]⟩ [⟨0, [Sample.C]⟩] = Except.ok r ∧
        r.type_id = 0 ∧ r._storage = [Sample.A, Sample.B, Sample.C] ∧ r.size = 3) ∧
      combine ⟨0, [Sample.A, Sample.B]⟩ [⟨0, [Sample.C]⟩, ⟨1, [Sample.C]⟩]
        = Except.error Failure.stop_incompatible_vector_types :=
  ⟨(combine_concatenates ⟨0, [Sample.A, Sample.B]⟩ [⟨0, [Sample.C]⟩]).1 (by decide),
    (combine_concatenates ⟨0, [Sample.A, Sample.B]⟩ [⟨0, [Sample.C]⟩, ⟨1, [Sample.C]⟩]).2
      ⟨⟨1, [Sample.C]⟩, by simp, by decide⟩⟩

/-! ## The claims on `subset` -/

theorem index_int_in_range {T : Type} (l : List T) (k : Int)
    (h : 1 ≤ k ∧ k ≤ (l.length : Int)) :
    ∃ x, l[(k - 1).toNat]? = some x ∧ index_int l k = Except.ok x := by
  have hlt : (k - 1).toNat < l.length := by omega
  refine ⟨l[(k - 1).toNat], List.getElem?_eq_getElem hlt, ?_⟩
  unfold index_int index
  rw [if_neg (by omega), List.getElem?_eq_getElem hlt]

theorem index_int_not_in_range {T : Type} (l : List T) (k : Int)
    (h : ¬ (1 ≤ k ∧ k ≤ (l.length : Int))) :
    index_int l k = Except.error Failure.out_of_range := by
  unfold index_int index
  by_cases hk : k - 1 < 0
  · rw [if_pos hk]
  · rw [if_neg hk]
    have hge : l.length ≤ (k - 1).toNat := by omega
    rw [List.getElem?_eq_none hge]

/-- With every non-NA index in range the loop of `subset` returns, having
pushed one element per index. -/
theorem subset_loop_in_range {T : Type} (E : Element T) (st : List T) :
    ∀ (idx : List Int) (ns : List T), spec_indices_in_range idx st.length →
      subset_loop E st idx ns = Except.ok (ns ++ idx.map (subset_cell E st)) := by
  intro idx
  induction idx with
  | nil => intro ns _; simp [subset_loop]
  | cons k rest ih =>
    intro ns h
    have hrest : spec_indices_in_range rest st.length :=
      fun z hz => h z (List.mem_cons_of_mem _ hz)
    rw [subset_loop]
    by_cases hk : k = R_NaInt
    · rw [if_pos hk, ih _ hrest]
      simp [subset_cell, hk]
    · obtain ⟨x, hx, hix⟩ := index_int_in_range st k (h k (List.mem_cons_self _ _) hk)
      have hcell : subset_cell E st k = x := by
        unfold subset_cell
        rw [if_neg hk, hx]
        rfl
      rw [if_neg hk, hix]
      simp only [ih _ hrest, List.map_cons, hcell]
      simp

/-- With a non-NA index out of range the loop of `subset` reads out of
range. -/
theorem subset_loop_not_in_range {T : Type} (E : Element T) (st : List T) :
    ∀ (idx : List Int) (ns : List T), ¬ spec_indices_in_range idx st.length →
      subset_loop E st idx ns = Except.error Failure.out_of_range := by
  intro idx
  induction idx with
  | nil =>
    intro ns h
    exact absurd (fun z hz => absurd hz (List.not_mem_nil z)) h
  | cons k rest ih =>
    intro ns h
    rw [subset_loop]
    by_cases hk : k = R_NaInt
    · rw [if_pos hk]
      apply ih
      intro hrest
      apply h
      intro z hz hzna
      rcases List.mem_cons.mp hz with h1 | h1
      · exact absurd (h1 ▸ hk) hzna
      · exact hrest z h1 hzna
    · rw [if_neg hk]
      by_cases hin : 1 ≤ k ∧ k ≤ (st.length : Int)
      · obtain ⟨x, _, hix⟩ := index_int_in_range st k hin
        rw [hix]
        apply ih
        intro hrest
        apply h
        intro z hz hzna
        rcases List.mem_cons.mp hz with h1 | h1
        · rw [h1]; exact hin
        · exact hrest z h1 hzna
      · rw [index_int_not_in_range st k hin]

/-- C15: when every non-NA entry of `idx` lies in `1..size(v)`,
`subset(v, idx)` returns a vector of the kind of `v` with one element per
entry of `idx`: `NA_value()` for an NA entry `idx[j]`, and
`v[idx[j] - 1]` otherwise. -/
theorem subset_in_range {T : Type} (E : Element T) (v : geometry_vector T) (idx : List Int)
    (h : spec_indices_in_range idx v.size) :
    ∃ r, subset E v idx = Except.ok r ∧ r.type_id = v.type_id ∧ r.size = idx.length ∧
      ∀ (j : Nat) (k : Int), idx[j]? = some k →
        (k = R_NaInt → r._storage[j]? = some E.NA_value) ∧
        (k ≠ R_NaInt →
          ∃ x, v._storage[(k - 1).toNat]? = some x ∧ r._storage[j]? = some x) := by
  refine ⟨⟨v.type_id, idx.map (subset_cell E v._storage)⟩, ?_, rfl, ?_, ?_⟩
  · unfold subset
    rw [subset_loop_in_range E v._storage idx [] h]
    simp
  · simp [geometry_vector.size]
  · intro j k hj
    have hmem : k ∈ idx := List.getElem?_mem hj
    simp only [List.getElem?_map, hj, Option.map_some']
    constructor
    · intro hk
      simp [subset_cell, hk]
    · intro hk
      obtain ⟨x, hx, _⟩ := index_int_in_range v._storage k (h k hmem hk)
      refine ⟨x, hx, ?_⟩
      unfold subset_cell
      rw [if_neg hk, hx]
      rfl

/-- Instance of C15: `subset([A, B, C], [2, NA, 1])` is `[B, NA, A]`. -/
theorem subset_in_range_witness :
    spec_indices_in_range [2, R_NaInt, 1]
        (geometry_vector.size (⟨0, [Sample.A, Sample.B, Sample.C]⟩ : geometry_vector Sample)) ∧
      (∃ r, subset sampleElement ⟨0, [Sample.A, Sample.B, Sample.C]⟩ [2, R_NaInt, 1]
          = Except.ok r ∧ r.size = 3) ∧
      subset sampleElement ⟨0, [Sample.A, Sample.B, Sample.C]⟩ [2, R_NaInt, 1]
        = Except.ok ⟨0, [Sample.B, Sample.NA, Sample.A]⟩ := by
  have hin : spec_indices_in_range [2, R_NaInt, 1]
      (geometry_vector.size
        (⟨0, [Sample.A, Sample.B, Sample.C]⟩ : geometry_vector Sample)) := by
    intro k hk hna
    simp only [List.mem_cons, List.mem_singleton, List.not_mem_nil, or_false] at hk
    rcases hk with h | h | h
    · subst h; decide
    · exact absurd h hna
    · subst h; decide
  obtain ⟨r, hr, _, hsize, _⟩ :=
    subset_in_range sampleElement ⟨0, [Sample.A, Sample.B, Sample.C]⟩ [2, R_NaInt, 1] hin
  exact ⟨hin, ⟨r, hr, hsize⟩, by rfl⟩

/-- C16 as stated fails: `subset([A], [2])` raises no index error, it reads
`_storage[1]` of a storage of size 1. -/
theorem subset_reads_out_of_range :
    subset sampleElement ⟨0, [Sample.A]⟩ [2] = Except.error Failure.out_of_range := by
  rfl

/-- C16, amended: `subset` has no bounds check and raises no index error;
`subset(v, idx)` returns a vector, every read of the storage being in range,
if and only if every non-NA entry of `idx` lies in `1..size(v)`, and
otherwise the unchecked access `_storage[idx[j] - 1]` is out of range. -/
theorem subset_returns_iff_in_range {T : Type} (E : Element T) (v : geometry_vector T)
    (idx : List Int) :
    ((∃ r, subset E v idx = Except.ok r) ↔ spec_indices_in_range idx v.size) ∧
      (¬ spec_indices_in_range idx v.size →
        subset E v idx = Except.error Failure.out_of_range) := by
  have hbad : ¬ spec_indices_in_range idx v.size →
      subset E v idx = Except.error Failure.out_of_range := by
    intro h
    unfold subset
    rw [subset_loop_not_in_range E v._storage idx [] h]
  refine ⟨⟨?_, ?_⟩, hbad⟩
  · rintro ⟨r, hr⟩
    by_contra h
    rw [hbad h] at hr
    exact absurd hr (by simp)
  · intro h
    unfold subset
    rw [subset_loop_in_range E v._storage idx [] h]
    exact ⟨_, rfl⟩

/-- Instance of the amended C16 on `subset([A, B], [3])`. -/
theorem subset_returns_iff_in_range_witness :
    ¬ spec_indices_in_range [3]
        (geometry_vector.size (⟨0, [Sample.A, Sample.B]⟩ : geometry_vector Sample)) ∧
      subset sampleElement ⟨0, [Sample.A, Sample.B]⟩ [3]
        = Except.error Failure.out_of_range := by
  have hout : ¬ spec_indices_in_range [3]
      (geometry_vector.size (⟨0, [Sample.A, Sample.B]⟩ : geometry_vector Sample)) := by
    intro h
    have := h 3 (List.mem_singleton.mpr rfl) (by decide)
    revert this
    decide
  exact ⟨hout,
    (subset_returns_iff_in_range sampleElement ⟨0, [Sample.A, Sample.B]⟩ [3]).2 hout⟩

/-! ## The claims on `assign` -/

theorem assign_extend_loop_eq {T : Type} (E : Element T) :
    ∀ (n : Nat) (ns : List T),
      assign_extend_loop E n ns = ns ++ List.replicate n E.NA_value := by
  intro n
  induction n with
  | zero => intro ns; simp [assign_extend_loop]
  | succ n ih =>
    intro ns
    rw [assign_extend_loop, ih, List.replicate_succ]
    simp

theorem foldl_max_spec :
    ∀ (rest : List Int) (k : Int),
      k ≤ rest.foldl max k ∧ (∀ z ∈ rest, z ≤ rest.foldl max k) ∧
        (rest.foldl max k = k ∨ rest.foldl max k ∈ rest) := by
  intro rest
  induction rest with
  | nil => intro k; simp
  | cons a rest ih =>
    intro k
    obtain ⟨h1, h2, h3⟩ := ih (max k a)
    simp only [List.foldl_cons]
    refine ⟨le_trans (le_max_left k a) h1, ?_, ?_⟩
    · intro z hz
      rcases List.mem_cons.mp hz with h | h
      · rw [h]; exact le_trans (le_max_right k a) h1
      · exact h2 z h
    · rcases h3 with h | h
      · rcases le_total k a with hka | hak
        · right
          rw [h, max_eq_right hka]
          exact List.mem_cons_self _ _
        · left
          rw [h, max_eq_left hak]
      · right
        exact List.mem_cons_of_mem _ h

/-- On a non-empty index list `std::max_element` yields its largest entry. -/
theorem std_max_element_spec (idx : List Int) (hne : idx ≠ []) :
    ∃ m, std_max_element idx = Except.ok m ∧ m ∈ idx ∧ ∀ k ∈ idx, k ≤ m := by
  cases idx with
  | nil => exact absurd rfl hne
  | cons a rest =>
    obtain ⟨h1, h2, h3⟩ := foldl_max_spec rest a
    refine ⟨rest.foldl max a, rfl, ?_, ?_⟩
    · rcases h3 with h | h
      · rw [h]; exact List.mem_cons_self _ _
      · exact List.mem_cons_of_mem _ h
    · intro k hk
      rcases List.mem_cons.mp hk with h | h
      · rw [h]; exact h1
      · exact h2 k h

theorem store_int_in_range {T : Type} (ns : List T) (k : Int) (x : T)
    (h : 1 ≤ k ∧ k ≤ (ns.length : Int)) :
    store_int ns k x = Except.ok (ns.set (k - 1).toNat x) := by
  unfold store_int
  rw [if_neg (by omega), if_pos (by omega)]

/-- The assignment loop of `assign` with every index in range: it returns,
keeps the length, leaves the positions that no index names, and each named
position holds the value paired with the last index that names it. -/
theorem assign_loop_in_range {T : Type} (vals : List T) :
    ∀ (idx : List Int) (i : Nat) (ns : List T),
      (∀ k ∈ idx, 1 ≤ k ∧ k ≤ (ns.length : Int)) → i + idx.length ≤ vals.length →
      ∃ r, assign_loop vals idx i ns = Except.ok r ∧ r.length = ns.length ∧
        ∀ p : Nat,
          (∀ j : Nat, idx[j]? = some ((p : Int) + 1) →
            (∀ j2 : Nat, j < j2 → idx[j2]? ≠ some ((p : Int) + 1)) →
            r[p]? = vals[i + j]?) ∧
          ((∀ k ∈ idx, k ≠ (p : Int) + 1) → r[p]? = ns[p]?) := by
  intro idx
  induction idx with
  | nil =>
    intro i ns _ _
    refine ⟨ns, rfl, rfl, fun p => ⟨?_, fun _ => rfl⟩⟩
    intro j hj
    simp at hj
  | cons k rest ih =>
    intro i ns hin hlen
    have hk := hin k (List.mem_cons_self _ _)
    have hi : i < vals.length := by
      simp only [List.length_cons] at hlen
      omega
    have hstore := store_int_in_range ns k vals[i] hk
    have hkp : (k - 1).toNat < ns.length := by omega
    obtain ⟨r, hr, hrl, hcells⟩ := ih (i + 1) (ns.set (k - 1).toNat vals[i])
      (fun z hz => by
        rw [List.length_set]
        exact hin z (List.mem_cons_of_mem _ hz))
      (by simp only [List.length_cons] at hlen; omega)
    refine ⟨r, ?_, by rw [hrl, List.length_set], ?_⟩
    · rw [assign_loop]
      simp only [index, List.getElem?_eq_getElem hi, hstore, hr]
    · intro p
      obtain ⟨hnamed, hfree⟩ := hcells p
      constructor
      · intro j hj hlast
        cases j with
        | zero =>
          have hkp1 : k = (p : Int) + 1 := by simpa using hj
          have hnone : ∀ z ∈ rest, z ≠ (p : Int) + 1 := by
            intro z hz hzp
            obtain ⟨j2, hj2⟩ := List.getElem?_of_mem hz
            apply hlast (j2 + 1) (Nat.succ_pos _)
            rw [List.getElem?_cons_succ, hj2, hzp]
          have hp : (k - 1).toNat = p := by omega
          rw [hfree hnone, hp, List.getElem?_set_self (by omega),
            Nat.add_zero, List.getElem?_eq_getElem hi]
        | succ j =>
          rw [List.getElem?_cons_succ] at hj
          have := hnamed j hj (fun j2 hj2 => by
            have := hlast (j2 + 1) (by omega)
            rwa [List.getElem?_cons_succ] at this)
          rw [this]
          congr 1
          omega
      · intro hnone
        have hkne : k ≠ (p : Int) + 1 := hnone k (List.mem_cons_self _ _)
        rw [hfree (fun z hz => hnone z (List.mem_cons_of_mem _ hz)),
          List.getElem?_set_ne (by omega)]

theorem index_failure {T : Type} (l : List T) (i : Nat) (e : Failure)
    (h : index l i = Except.error e) : e = Failure.out_of_range := by
  unfold index at h
  cases hl : l[i]? with
  | none => rw [hl] at h; injection h with h; exact h.symm
  | some x => rw [hl] at h; exact absurd h (by simp)

theorem store_int_failure {T : Type} (ns : List T) (k : Int) (x : T) (e : Failure)
    (h : store_int ns k x = Except.error e) : e = Failure.out_of_range := by
  unfold store_int at h
  by_cases h1 : k - 1 < 0
  · rw [if_pos h1] at h; injection h with h; exact h.symm
  · rw [if_neg h1] at h
    by_cases h2 : (k - 1).toNat < ns.length
    · rw [if_pos h2] at h; exact absurd h (by simp)
    · rw [if_neg h2] at h; injection h with h; exact h.symm

/-- The assignment loop of `assign` fails only by an access out of range. -/
theorem assign_loop_failure {T : Type} (vals : List T) :
    ∀ (idx : List Int) (i : Nat) (ns : List T) (e : Failure),
      assign_loop vals idx i ns = Except.error e → e = Failure.out_of_range := by
  intro idx
  induction idx with
  | nil => intro i ns e h; simp [assign_loop] at h
  | cons k rest ih =>
    intro i ns e h
    rw [assign_loop] at h
    cases hidx : index vals i with
    | error e1 =>
      simp only [hidx, Except.error.injEq] at h
      rw [← h]
      exact index_failure vals i e1 hidx
    | ok x =>
      simp only [hidx] at h
      cases hst : store_int ns k x with
      | error e1 =>
        simp only [hst, Except.error.injEq] at h
        rw [← h]
        exact store_int_failure ns k x e1 hst
      | ok stored =>
        simp only [hst] at h
        exact ih _ _ _ h

/-- C13: for a values vector of the kind of `v`, a non-empty index list of
the same length as the values and every index at least 1,
`assign(v, idx, vals)` returns a vector of the kind of `v` whose length is
the larger of `size(v)` and the largest index `m` (so it never truncates);
a position `p` named by an index holds the value paired with the last index
equal to `p + 1`; any other position holds `v[p]` below `size(v)` and
`NA_value()` from `size(v)` on. -/
theorem assign_extends_and_overwrites {T : Type} (E : Element T) (v vals : geometry_vector T)
    (idx : List Int) (hk : v.type_id = vals.type_id) (hlen : idx.length = vals.size)
    (hne : idx ≠ []) (hpos : ∀ k ∈ idx, 1 ≤ k) :
    ∃ r m, assign E v idx vals = Except.ok r ∧ r.type_id = v.type_id ∧
      m ∈ idx ∧ (∀ k ∈ idx, k ≤ m) ∧ (r.size : Int) = max (v.size : Int) m ∧
      ∀ p : Nat, p < r.size →
        (∀ j : Nat, idx[j]? = some ((p : Int) + 1) →
          (∀ j2 : Nat, j < j2 → idx[j2]? ≠ some ((p : Int) + 1)) →
          r._storage[p]? = vals._storage[j]?) ∧
        ((∀ k ∈ idx, k ≠ (p : Int) + 1) → p < v.size → r._storage[p]? = v._storage[p]?) ∧
        ((∀ k ∈ idx, k ≠ (p : Int) + 1) → v.size ≤ p →
          r._storage[p]? = some E.NA_value) := by
  obtain ⟨m, hm, hmem, hmax⟩ := std_max_element_spec idx hne
  have hm1 : 1 ≤ m := hpos m hmem
  have hext : (if m.toNat > v._storage.length then
        assign_extend_loop E (m.toNat - v._storage.length) v._storage
      else v._storage)
      = v._storage ++ List.replicate (m.toNat - v._storage.length) E.NA_value := by
    by_cases h : m.toNat > v._storage.length
    · rw [if_pos h, assign_extend_loop_eq]
    · rw [if_neg h]
      have h0 : m.toNat - v._storage.length = 0 := by omega
      rw [h0]
      simp
  have hnl : (v._storage ++ List.replicate (m.toNat - v._storage.length) E.NA_value).length
      = max v._storage.length m.toNat := by
    rw [List.length_append, List.length_replicate]
    omega
  obtain ⟨r, hr, hrl, hcells⟩ := assign_loop_in_range vals._storage idx 0
    (v._storage ++ List.replicate (m.toNat - v._storage.length) E.NA_value)
    (fun k hk2 => by
      have h1 := hpos k hk2
      have h2 := hmax k hk2
      rw [hnl]
      omega)
    (by rw [hlen]; simp [geometry_vector.size])
  refine ⟨⟨v.type_id, r⟩, m, ?_, rfl, hmem, hmax, ?_, ?_⟩
  · unfold assign
    rw [if_neg (by rw [hlen]; exact fun h => h rfl), if_neg (by rw [hk]; exact fun h => h rfl)]
    simp only [hm, if_neg (show ¬ m < 0 by omega), hext, hr]
  · simp only [geometry_vector.size, hrl, hnl]
    omega
  · intro p hp
    obtain ⟨hnamed, hfree⟩ := hcells p
    refine ⟨?_, ?_, ?_⟩
    · intro j hj hlast
      have := hnamed j hj hlast
      rwa [Nat.zero_add] at this
    · intro hnone hpv
      show r[p]? = v._storage[p]?
      rw [hfree hnone, List.getElem?_append_left hpv]
    · intro hnone hpv
      show r[p]? = some E.NA_value
      have hp2 : p < max v._storage.length m.toNat := by
        have : p < r.length := hp
        rw [hrl, hnl] at this
        exact this
      rw [hfree hnone, List.getElem?_append_right hpv, List.getElem?_replicate,
        if_pos (by simp only [geometry_vector.size] at hpv; omega)]

/-- Instance of C13: `assign([A], [3], [B])` is `[A, NA, B]`, of length 3. -/
theorem assign_extends_and_overwrites_witness :
    (∀ k ∈ ([3] : List Int), 1 ≤ k) ∧
      assign sampleElement ⟨0, [Sample.A]⟩ [3] ⟨0, [Sample.B]⟩
        = Except.ok ⟨0, [Sample.A, Sample.NA, Sample.B]⟩ ∧
      ∃ r m, assign sampleElement ⟨0, [Sample.A]⟩ [3] ⟨0, [Sample.B]⟩ = Except.ok r ∧
        m ∈ ([3] : List Int) ∧
        (r.size : Int) = max ((⟨0, [Sample.A]⟩ : geometry_vector Sample).size : Int) m := by
  have hpos : ∀ k ∈ ([3] : List Int), 1 ≤ k := by
    intro k hk
    rw [List.mem_singleton.mp hk]
    decide
  obtain ⟨r, m, hr, _, hm, _, hsize, _⟩ :=
    assign_extends_and_overwrites sampleElement ⟨0, [Sample.A]⟩ ⟨0, [Sample.B]⟩ [3]
      rfl rfl (by decide) hpos
  exact ⟨hpos, by rfl, r, m, hr, hm, hsize⟩

/-- With index and value lengths equal, `assign` fails only by the
type-mismatch stop, an access out of range, or the `reserve` of a negative
amount. -/
theorem assign_failure_kinds {T : Type} (E : Element T) (v vals : geometry_vector T)
    (idx : List Int) (hlen : idx.length = vals.size) (e : Failure)
    (h : assign E v idx vals = Except.error e) :
    e = Failure.stop_incompatible_assignment_value_type ∨ e = Failure.out_of_range ∨
      e = Failure.length_error := by
  unfold assign at h
  rw [if_neg (by rw [hlen]; exact fun h => h rfl)] at h
  by_cases hk : v.type_id ≠ vals.type_id
  · rw [if_pos hk] at h
    simp only [Except.error.injEq] at h
    exact Or.inl h.symm
  · rw [if_neg hk] at h
    cases hmax : std_max_element idx with
    | error e1 =>
      simp only [hmax, Except.error.injEq] at h
      cases idx with
      | nil =>
        simp only [std_max_element, Except.error.injEq] at hmax
        rw [← h, ← hmax]
        exact Or.inr (Or.inl rfl)
      | cons a rest => simp [std_max_element] at hmax
    | ok m =>
      simp only [hmax] at h
      by_cases hneg : m < 0
      · rw [if_pos hneg] at h
        simp only [Except.error.injEq] at h
        exact Or.inr (Or.inr h.symm)
      · rw [if_neg hneg] at h
        split at h
        · rename_i e1 heq
          simp only [Except.error.injEq] at h
          rw [← h]
          exact Or.inr (Or.inl (assign_loop_failure _ _ _ _ _ heq))
        · exact absurd h (by simp)

/-- C14: `assign(v, idx, vals)` fails with the size-mismatch stop if and only
if `idx` and `vals` differ in length; with equal lengths and a `vals` of
another kind it fails with the type-mismatch stop; in both cases no vector is
returned. -/
theorem assign_size_and_type_checks {T : Type} (E : Element T) (v vals : geometry_vector T)
    (idx : List Int) :
    (assign E v idx vals = Except.error Failure.stop_incompatible_vector_sizes ↔
        idx.length ≠ vals.size) ∧
      (idx.length = vals.size → v.type_id ≠ vals.type_id →
        assign E v idx vals = Except.error Failure.stop_incompatible_assignment_value_type) ∧
      ((idx.length ≠ vals.size ∨ v.type_id ≠ vals.type_id) →
        ∀ r, assign E v idx vals ≠ Except.ok r) := by
  have hsize : idx.length ≠ vals.size →
      assign E v idx vals = Except.error Failure.stop_incompatible_vector_sizes := by
    intro h
    unfold assign
    rw [if_pos h]
  have htype : idx.length = vals.size → v.type_id ≠ vals.type_id →
      assign E v idx vals = Except.error Failure.stop_incompatible_assignment_value_type := by
    intro h1 h2
    unfold assign
    rw [if_neg (by rw [h1]; exact fun h => h rfl), if_pos h2]
  refine ⟨⟨?_, hsize⟩, htype, ?_⟩
  · intro h hlen
    rcases assign_failure_kinds E v vals idx hlen _ h with h1 | h1 | h1 <;>
      exact absurd h1 (by decide)
  · intro h r hr
    by_cases hlen : idx.length = vals.size
    · rcases h with h | h
      · exact h hlen
      · rw [htype hlen h] at hr
        exact absurd hr (by simp)
    · rw [hsize hlen] at hr
      exact absurd hr (by simp)

/-- Instance of C14: one index with two values stops on the sizes; one index
with one value of another kind stops on the type. -/
theorem assign_size_and_type_checks_witness :
    assign sampleElement ⟨0, [Sample.A]⟩ [1] ⟨0, [Sample.B, Sample.C]⟩
        = Except.error Failure.stop_incompatible_vector_sizes ∧
      assign sampleElement ⟨0, [Sample.A]⟩ [1] ⟨1, [Sample.B]⟩
        = Except.error Failure.stop_incompatible_assignment_value_type :=
  ⟨(assign_size_and_type_checks sampleElement ⟨0, [Sample.A]⟩ ⟨0, [Sample.B, Sample.C]⟩
      [1]).1.mpr (by decide),
    (assign_size_and_type_checks sampleElement ⟨0, [Sample.A]⟩ ⟨1, [Sample.B]⟩ [1]).2.1
      rfl (by decide)⟩

/-- C20 (the code departs from the claim): assigning an empty index list and
an empty values vector should return `v` unchanged.  The source dereferences
`std::max_element(index.begin(), index.end())` with no guard; on an empty
range that is the end iterator, so the call reads past the index list
instead of returning `v`. -/
theorem assign_nothing_reads_past_index :
    assign sampleElement ⟨0, [Sample.A]⟩ [] ⟨0, []⟩ = Except.error Failure.out_of_range := by
  rfl

/-! ## The claim relating `any_duplicated` and `unique` -/

theorem noRepeat_of_invalid {T : Type} (E : Element T) (x y : T)
    (hx : E.is_valid x = false) : NoRepeat E x y ↔ E.is_valid y = true := by
  unfold NoRepeat
  constructor
  · intro h
    cases hy : E.is_valid y
    · exact absurd ⟨hx, hy⟩ h.2
    · rfl
  · intro hy
    refine ⟨fun h => ?_, fun h => ?_⟩
    · rw [hx] at h; exact absurd h (by decide)
    · rw [hy] at h; exact absurd h.2 (by decide)

theorem noRepeat_of_valid {T : Type} (E : Element T) (x y : T)
    (hx : E.is_valid x = true) :
    NoRepeat E x y ↔ (E.is_valid y = true → E.eq x y = false) := by
  unfold NoRepeat
  constructor
  · intro h hy
    exact h.1 hx hy
  · intro h
    refine ⟨fun _ hy => h hy, fun h2 => ?_⟩
    rw [hx] at h2
    exact absurd h2.1 (by decide)

/-- The loop of `any_duplicated` runs to its end, returning `-1`, exactly on
a range without repeats (and without NA when one was seen before). -/
theorem any_duplicated_loop_eq_neg_one {T : Type} (E : Element T) (hE : E.Lawful) :
    ∀ (l : List T) (NA_seen : Bool) (i : Int), 0 ≤ i →
      (any_duplicated_loop E l NA_seen i = -1 ↔
        l.Pairwise (NoRepeat E) ∧ (NA_seen = true → ∀ x ∈ l, E.is_valid x = true)) := by
  intro l
  induction l with
  | nil => intro seen i _; simp [any_duplicated_loop]
  | cons x rest ih =>
    intro seen i hi
    rw [any_duplicated_loop, List.pairwise_cons]
    cases hvx : E.is_valid x
    · simp only [Bool.not_false, if_true]
      cases hs : seen
      · simp only [Bool.false_eq_true, if_false, false_implies, and_true]
        rw [ih true (i + 1) (by omega)]
        constructor
        · rintro ⟨hp, hall⟩
          exact ⟨fun y hy => (noRepeat_of_invalid E x y hvx).mpr (hall rfl y hy), hp⟩
        · rintro ⟨hx, hp⟩
          exact ⟨hp, fun _ y hy => (noRepeat_of_invalid E x y hvx).mp (hx y hy)⟩
      · simp only [if_true]
        constructor
        · intro h; omega
        · rintro ⟨_, hall⟩
          have := hall trivial x (List.mem_cons_self _ _)
          rw [hvx] at this
          exact absurd this (by decide)
    · simp only [Bool.not_true, Bool.false_eq_true, if_false]
      by_cases hf : std_find E rest x = rest.length
      · rw [if_neg (by rw [hf]; exact fun h => h rfl), ih seen (i + 1) (by omega)]
        unfold std_find at hf
        rw [List.findIdx_eq_length] at hf
        have hx : ∀ y ∈ rest, NoRepeat E x y := by
          intro y hy
          rw [noRepeat_of_valid E x y hvx]
          intro hvy
          cases hxy : E.eq x y
          · rfl
          · have := hE.eq_symm x y hvx hvy hxy
            rw [hf y hy] at this
            exact absurd this (by decide)
        constructor
        · rintro ⟨hp, hall⟩
          refine ⟨⟨hx, hp⟩, fun hs y hy => ?_⟩
          rcases List.mem_cons.mp hy with h | h
          · rw [h]; exact hvx
          · exact hall hs y h
        · rintro ⟨⟨_, hp⟩, hall⟩
          exact ⟨hp, fun hs y hy => hall hs y (List.mem_cons_of_mem _ hy)⟩
      · rw [if_pos hf]
        constructor
        · intro h; omega
        · rintro ⟨⟨hx, _⟩, _⟩
          exfalso
          apply hf
          unfold std_find
          rw [List.findIdx_eq_length]
          intro y hy
          cases hyx : E.eq y x
          · rfl
          · exfalso
            have hvy : E.is_valid y = true := by
              cases hv : E.is_valid y
              · rw [hE.na_ne_left y x hv hvx] at hyx
                exact absurd hyx (by decide)
              · rfl
            have h1 := (noRepeat_of_valid E x y hvx).mp (hx y hy) hvy
            rw [hE.eq_symm y x hvy hvx hyx] at h1
            exact absurd h1 (by decide)

theorem unique_loop_length_le {T : Type} (E : Element T) :
    ∀ (l ns : List T) (NA_seen : Bool),
      (unique_loop E l ns NA_seen).length ≤ ns.length + l.length := by
  intro l
  induction l with
  | nil => intro ns seen; simp [unique_loop]
  | cons x rest ih =>
    intro ns seen
    rw [unique_loop_cons]
    simp only [List.length_cons]
    split
    · split
      · have := ih (ns ++ [E.NA_value]) true
        simp only [List.length_append, List.length_singleton] at this
        omega
      · have := ih ns seen
        omega
    · split
      · have := ih (ns ++ [x]) seen
        simp only [List.length_append, List.length_singleton] at this
        omega
      · have := ih ns seen
        omega

/-- The loop of `unique` pushes every element of its range exactly when the
range has no repeats, none of its valid elements equals one already stored,
and it holds no NA when one was seen before. -/
theorem unique_loop_length_eq_iff {T : Type} (E : Element T) (hE : E.Lawful) :
    ∀ (l ns : List T) (NA_seen : Bool),
      ((unique_loop E l ns NA_seen).length = ns.length + l.length ↔
        l.Pairwise (NoRepeat E) ∧
          (∀ a ∈ ns, ∀ x ∈ l, E.is_valid x = true → E.eq a x = false) ∧
          (NA_seen = true → ∀ x ∈ l, E.is_valid x = true)) := by
  intro l
  induction l with
  | nil => intro ns seen; simp [unique_loop]
  | cons x rest ih =>
    intro ns seen
    rw [unique_loop_cons, List.pairwise_cons]
    simp only [List.length_cons]
    cases hvx : E.is_valid x
    · simp only [Bool.not_false, if_true]
      cases hs : seen
      · simp only [Bool.not_false, if_true, Bool.false_eq_true, false_implies, and_true]
        have hih := ih (ns ++ [E.NA_value]) true
        simp only [List.length_append, List.length_singleton] at hih
        rw [show ns.length + (rest.length + 1) = ns.length + 1 + rest.length by omega, hih]
        constructor
        · rintro ⟨hp, hns, hall⟩
          refine ⟨⟨fun y hy => (noRepeat_of_invalid E x y hvx).mpr (hall trivial y hy), hp⟩, ?_⟩
          intro a ha y hy hvy
          rcases List.mem_cons.mp hy with h | h
          · rw [h, hvx] at hvy
            exact absurd hvy (by decide)
          · exact hns a (List.mem_append_left _ ha) y h hvy
        · rintro ⟨⟨hx, hp⟩, hns⟩
          refine ⟨hp, ?_, fun _ y hy => (noRepeat_of_invalid E x y hvx).mp (hx y hy)⟩
          intro a ha y hy hvy
          rcases List.mem_append.mp ha with h | h
          · exact hns a h y (List.mem_cons_of_mem _ hy) hvy
          · have h2 : a = E.NA_value := by simpa using h
            rw [h2]
            exact hE.na_ne_left _ _ hE.na_invalid hvy
      · simp only [Bool.not_true, Bool.false_eq_true, if_false]
        have hle := unique_loop_length_le E rest ns true
        constructor
        · intro h; omega
        · rintro ⟨_, _, hall⟩
          have := hall trivial x (List.mem_cons_self _ _)
          rw [hvx] at this
          exact absurd this (by decide)
    · simp only [Bool.not_true, Bool.false_eq_true, if_false]
      by_cases hf : std_find E ns x = ns.length
      · rw [if_pos hf]
        unfold std_find at hf
        rw [List.findIdx_eq_length] at hf
        have hih := ih (ns ++ [x]) seen
        simp only [List.length_append, List.length_singleton] at hih
        rw [show ns.length + (rest.length + 1) = ns.length + 1 + rest.length by omega, hih]
        constructor
        · rintro ⟨hp, hns, hall⟩
          refine ⟨⟨?_, hp⟩, ?_, ?_⟩
          · intro y hy
            rw [noRepeat_of_valid E x y hvx]
            exact hns x (List.mem_append_right _ (List.mem_singleton.mpr rfl)) y hy
          · intro a ha y hy hvy
            rcases List.mem_cons.mp hy with h | h
            · rw [h]; exact hf a ha
            · exact hns a (List.mem_append_left _ ha) y h hvy
          · intro hs y hy
            rcases List.mem_cons.mp hy with h | h
            · rw [h]; exact hvx
            · exact hall hs y h
        · rintro ⟨⟨hx, hp⟩, hns, hall⟩
          refine ⟨hp, ?_, fun hs y hy => hall hs y (List.mem_cons_of_mem _ hy)⟩
          intro a ha y hy hvy
          rcases List.mem_append.mp ha with h | h
          · exact hns a h y (List.mem_cons_of_mem _ hy) hvy
          · have h2 : a = x := by simpa using h
            rw [h2]
            exact (noRepeat_of_valid E x y hvx).mp (hx y hy) hvy
      · rw [if_neg hf]
        have hle := unique_loop_length_le E rest ns seen
        constructor
        · intro h; omega
        · rintro ⟨_, hns, _⟩
          exfalso
          apply hf
          unfold std_find
          rw [List.findIdx_eq_length]
          intro a ha
          exact hns a ha x (List.mem_cons_self _ _) hvx

/-- C19: under the element contract, `any_duplicated(v)` returns `-1` if and
only if `unique(v)` is as long as `v`, and both hold exactly when `v` has no
two equal valid elements and at most one NA. -/
theorem any_duplicated_none_iff_unique_same_length {T : Type} (E : Element T)
    (hE : E.Lawful) (v : geometry_vector T) :
    (any_duplicated E v = -1 ↔ (unique E v).size = v.size) ∧
      ((unique E v).size = v.size ↔ v._storage.Pairwise (NoRepeat E)) := by
  have h1 := any_duplicated_loop_eq_neg_one E hE v._storage false 0 (le_refl 0)
  have h2 := unique_loop_length_eq_iff E hE v._storage [] false
  simp only [Bool.false_eq_true, false_implies, and_true, List.length_nil, Nat.zero_add,
    List.not_mem_nil, implies_true] at h1 h2
  exact ⟨h1.trans h2.symm, h2⟩

/-- Instance of C19: on `[A, NA, B]` there is no repeat, `any_duplicated` is
`-1` and `unique` keeps the 3 elements; on `[A, B, A]` neither holds. -/
theorem any_duplicated_none_iff_unique_same_length_witness :
    sampleElement.Lawful ∧
      any_duplicated sampleElement ⟨0, [Sample.A, Sample.NA, Sample.B]⟩ = -1 ∧
      (unique sampleElement ⟨0, [Sample.A, Sample.NA, Sample.B]⟩).size = 3 ∧
      any_duplicated sampleElement ⟨0, [Sample.A, Sample.B, Sample.A]⟩ ≠ -1 ∧
      (unique sampleElement ⟨0, [Sample.A, Sample.B, Sample.A]⟩).size = 2 := by
  have h := any_duplicated_none_iff_unique_same_length sampleElement sampleElement_lawful
    ⟨0, [Sample.A, Sample.NA, Sample.B]⟩
  have hu : (unique sampleElement ⟨0, [Sample.A, Sample.NA, Sample.B]⟩).size = 3 := by decide
  exact ⟨sampleElement_lawful, h.1.mpr hu, hu, by decide, by decide⟩

end GeometryVector
